import Mathlib

/-!
# photonCalibPerf: the benchmark driver of `util/photonCalibPerf.cxx`

The program is a single `main` that calls into ROOT, the xAOD event store, the
egamma calibration tool and callgrind.  The embedding below keeps the control
flow of `main` and replaces every external collaborator by an oracle
(`World`): each field gives the answer the collaborator returns at a given
position of the run.  Because `main` is sequential and deterministic, the
position (event index, systematic index, photon index) determines the whole
call history, so position-indexed answers cover stateful collaborators too.

A run yields the ordered list of external calls it made (`trace`) together
with the way it ended (`outcome`).  Log output (`Error`, `Info`, `std::cout`)
is recorded in the trace as well.  Pure library helpers (`atoll`, `std::min`)
are values, and the implicit destructors at scope exit are not traced.
-/

namespace PhotonCalibPerf

/-! ## Data model -/

/-- Status values of `CP::CorrectionCode`, the return type of `applyCorrection`. -/
inductive CorrectionCode
  | Error
  | OutOfValidityRange
  | Ok
  deriving DecidableEq, Repr

/-- The expressions that `main` wraps in the `CHECK` macro. -/
inductive CheckArg
  | xAODInit
  | inputFileGet
  | readFrom
  | calibToolInit
  | retrieveEventInfo
  | retrievePhotons
  | applySystematicVariation
  deriving DecidableEq, Repr

/-- External calls of `main`, in the vocabulary of the source.  The numeric
arguments of the loop calls identify the objects the call works on: the event
index, the index of the systematic variation in `sysList`, and the index of the
photon in the shallow copy made for that variation. -/
inductive Call
  /-- The call `Error(appName, "No file name received!")` -/
  | ErrorNoFileName
  /-- The call `Error(appName, "  usage: %s [xAOD file name]", appName)` -/
  | ErrorUsage
  /-- The call `::Error(appName, "Failed to execute: ...", #ARG)` inside `CHECK` -/
  | ErrorFailedToExecute (arg : CheckArg)
  /-- The call `Error(appName, "Problem in applyCorrection")` -/
  | ErrorProblemInApplyCorrection
  /-- The call `Info(appName, "Opening file: %s", fileName)` -/
  | InfoOpeningFile (fileName : String)
  /-- The call `Info(appName, "Number of events in the file: %lli", entries)` -/
  | InfoNumberOfEvents (entries : Int)
  /-- The call `Info(appName, "Will process %lli events", entries)` -/
  | InfoWillProcess (entries : Int)
  /-- The call `Info(appName, "List of systematics:")` -/
  | InfoListOfSystematics
  /-- The output `std::cout << "    " << sysName << std::endl` -/
  | coutSysName (sysName : String)
  /-- The call `Info(appName, "===>>> processing event #%lli <<<===", entry)` -/
  | InfoProcessingEvent (entry : Nat)
  /-- The call `xAOD::Init(appName)` -/
  | xAODInit
  /-- The call `StatusCode::enableFailure()` -/
  | enableFailure
  /-- The call `TFile::Open(fileName, "READ")` -/
  | TFileOpen (fileName : String)
  /-- The call `xAOD::TEvent event(xAOD::TEvent::kClassAccess)` -/
  | TEventCtor
  /-- The call `event.readFrom(inputFile.get())` -/
  | readFrom
  /-- The call `event.getEntries()` -/
  | getEntries
  /-- The call `CP::EgammaCalibrationAndSmearingTool calibTool(...)` -/
  | calibToolCtor
  /-- The call `calibTool.initialize()` -/
  | calibToolInit
  /-- The call `calibTool.recommendedSystematics()` -/
  | recommendedSystematics
  /-- The call `CP::make_systematics_vector(recommendedSysts)` -/
  | make_systematics_vector
  /-- The call `CALLGRIND_START_INSTRUMENTATION` -/
  | CALLGRIND_START_INSTRUMENTATION
  /-- The call `event.retrieve(evtInfo, "EventInfo")` in the iteration `entry` -/
  | retrieveEventInfo (entry : Nat)
  /-- The call `event.retrieve(photons, "PhotonCollection")` in the iteration `entry` -/
  | retrievePhotons (entry : Nat)
  /-- The call `calibTool.applySystematicVariation(sys)` -/
  | applySystematicVariation (entry sys : Nat)
  /-- The call `xAOD::shallowCopyContainer(*photons)` -/
  | shallowCopyContainer (entry sys : Nat)
  /-- The call `calibTool.applyCorrection(*photon, evtInfo)` -/
  | applyCorrection (entry sys photon : Nat)
  /-- The call `CALLGRIND_STOP_INSTRUMENTATION` -/
  | CALLGRIND_STOP_INSTRUMENTATION
  deriving DecidableEq, Repr

/-- How a run of `main` ends: with an exit code, or in the undefined behaviour
of an integer modulo by zero (no exit code is produced). -/
inductive Outcome
  | exit (code : Int)
  | moduloByZero
  deriving DecidableEq, Repr

/-- A `CP::SystematicSet` as far as `main` looks at it: `empty()` and `name()`. -/
structure SystematicSet where
  empty : Bool
  name : String
  deriving DecidableEq, Repr

/-- Answers of the external collaborators. -/
structure World where
  /-- result of `xAOD::Init(appName)` -/
  xAODInit : Bool
  /-- whether `TFile::Open(fileName, "READ")` returns a non-null file -/
  TFileOpen : String → Bool
  /-- result of `event.readFrom(...)` -/
  readFrom : Bool
  /-- result of `event.getEntries()`, a `Long64_t` -/
  getEntries : Int
  /-- result of `atoll` on a command-line argument -/
  atoll : String → Int
  /-- result of `calibTool.initialize()` -/
  calibToolInit : Bool
  /-- The list `make_systematics_vector(calibTool.recommendedSystematics())` -/
  sysList : List SystematicSet
  /-- result of `event.retrieve(evtInfo, "EventInfo")` in iteration `entry` -/
  retrieveEventInfo : Nat → Bool
  /-- result of `event.retrieve(photons, "PhotonCollection")` in iteration `entry` -/
  retrievePhotons : Nat → Bool
  /-- size of the photon container retrieved in iteration `entry` -/
  photons : Nat → Nat
  /-- result of `applySystematicVariation` for `sysList[sys]` in iteration `entry` -/
  applySystematicVariation : Nat → Nat → Bool
  /-- result of `applyCorrection` on photon `photon` of the copy made for
  `sysList[sys]` in iteration `entry` -/
  applyCorrection : Nat → Nat → Nat → CorrectionCode

/-- Result of running a block of statements: the calls made, and `some o` when
the block executed a `return` (or hit undefined behaviour), `none` when control
falls through to the next statement. -/
structure Step where
  trace : List Call
  ret : Option Outcome
  deriving DecidableEq, Repr

/-- Result of a whole run of `main`. -/
structure Result where
  trace : List Call
  outcome : Outcome
  deriving DecidableEq, Repr

/-! ## Control flow -/

/-- Sequencing of two blocks: the second runs only if the first fell through. -/
def Step.andThen (a b : Step) : Step :=
  match a.ret with
  | some _ => a
  | none => ⟨a.trace ++ b.trace, b.ret⟩

/-- A `for` loop whose body may `return` from `main`. -/
def forEach {α : Type} (body : α → Step) : List α → Step
  | [] => ⟨[], none⟩
  | x :: xs => (body x).andThen (forEach body xs)

/-- A statement that makes one external call and continues. -/
def call (c : Call) : Step := ⟨[c], none⟩

/-- The macro `CHECK( ARG )`: evaluate `ARG` (the call `c`, with boolean result
`result`); on `false` log the failure and `return 1`. -/
def CHECK (c : Call) (result : Bool) (arg : CheckArg) : Step :=
  if result then ⟨[c], none⟩
  else ⟨[c, Call.ErrorFailedToExecute arg], some (Outcome.exit 1)⟩

/-- The value of `EXIT_SUCCESS` from `<cstdlib>`. -/
def EXIT_SUCCESS : Int := 0

/-- The value of `EXIT_FAILURE` from `<cstdlib>`, which is 1 like the literal
that `CHECK` returns. -/
def EXIT_FAILURE : Int := 1

/-! ## Integer arithmetic -/

/-- Two's-complement value of a 64-bit signed integer (`Long64_t`); it is the
identity on `[-2^63, 2^63)`. -/
def wrapInt64 (x : Int) : Int :=
  (x + 9223372036854775808) % 18446744073709551616 - 9223372036854775808

/-- Narrowing conversion to a 32-bit signed `int`. -/
def wrapInt32 (x : Int) : Int := (x + 2147483648) % 4294967296 - 2147483648

/-- The operator `%` of C++ on integers: truncating remainder, undefined
(`none`) for a zero divisor. -/
def cmod (a b : Int) : Option Int :=
  if b = 0 then none else some (a.tmod b)

/-- The constant `const int nEvtPrints = 5;` -/
def nEvtPrints : Int := 5

/-- The constant `const int evtPrintFreq = (entries-1) / nEvtPrints + 1;` : the
right-hand side is computed in `Long64_t` with truncating division and then
narrowed to `int`.  The subtraction leaves the range of `Long64_t` only for
`entries = -2^63`, where it wraps around. -/
def evtPrintFreq (entries : Int) : Int :=
  wrapInt32 ((wrapInt64 (entries - 1)).tdiv nEvtPrints + 1)

/-! ## The program -/

/-- Modelled from the spec: `xAOD::shallowCopyContainer` is library code outside
this repository; it yields "an independent shallow (copy-on-write) view of the
photon collection", one element per photon of the original, so the copy has the
size of the container it is made from. -/
def shallowCopyContainer (photons : Nat) : Nat := photons

/-- Body of `for(auto photon : *sysPhotons)`. -/
def photonBody (w : World) (entry sys photon : Nat) : Step :=
  if w.applyCorrection entry sys photon = CorrectionCode.Error then
    ⟨[Call.applyCorrection entry sys photon, Call.ErrorProblemInApplyCorrection],
      some (Outcome.exit EXIT_FAILURE)⟩
  else ⟨[Call.applyCorrection entry sys photon], none⟩

/-- Body of `for(auto& sys : sysList)` inside the event loop. -/
def sysBody (w : World) (entry photons sys : Nat) : Step :=
  (CHECK (Call.applySystematicVariation entry sys) (w.applySystematicVariation entry sys)
      CheckArg.applySystematicVariation).andThen
  ((call (Call.shallowCopyContainer entry sys)).andThen
  (forEach (photonBody w entry sys) (List.range (shallowCopyContainer photons))))

/-- The progress printout `if((entry % evtPrintFreq) == 0) Info(...)`. -/
def printProgress (freq : Int) (entry : Nat) : Step :=
  match cmod (entry : Int) freq with
  | none => ⟨[], some Outcome.moduloByZero⟩
  | some r => if r = 0 then call (Call.InfoProcessingEvent entry) else ⟨[], none⟩

/-- Body of the event loop. -/
def eventBody (w : World) (freq : Int) (entry : Nat) : Step :=
  (printProgress freq entry).andThen
  ((CHECK (Call.retrieveEventInfo entry) (w.retrieveEventInfo entry)
      CheckArg.retrieveEventInfo).andThen
  ((CHECK (Call.retrievePhotons entry) (w.retrievePhotons entry)
      CheckArg.retrievePhotons).andThen
  (forEach (sysBody w entry (w.photons entry)) (List.range w.sysList.length))))

/-- The loop `for(Long64_t entry = 0; entry < entries; ++entry)`. -/
def eventLoop (w : World) (freq entries : Int) : Step :=
  forEach (eventBody w freq) (List.range entries.toNat)

/-- The printout of the list of systematics. -/
def printSysList (sysList : List SystematicSet) : Step :=
  (call Call.InfoListOfSystematics).andThen
  (forEach (fun sys => call (Call.coutSysName (if sys.empty then "Nominal" else sys.name)))
    sysList)

/-- The number of events to run over: `entries = event.getEntries()`, lowered
to `std::min(entries, atoll(argv[2]))` when `argc > 2`. -/
def entriesToProcess (w : World) (argv : List String) : Int :=
  if argv.length > 2 then min w.getEntries (w.atoll (argv.getD 2 "")) else w.getEntries

/-- Everything `main` does from `xAOD::Init` up to the list of systematics. -/
def setup (w : World) (argv : List String) : Step :=
  (CHECK Call.xAODInit w.xAODInit CheckArg.xAODInit).andThen
  ((call Call.enableFailure).andThen
  ((call (Call.InfoOpeningFile (argv.getD 1 ""))).andThen
  ((CHECK (Call.TFileOpen (argv.getD 1 "")) (w.TFileOpen (argv.getD 1 ""))
      CheckArg.inputFileGet).andThen
  ((call Call.TEventCtor).andThen
  ((CHECK Call.readFrom w.readFrom CheckArg.readFrom).andThen
  ((call Call.getEntries).andThen
  ((call (Call.InfoNumberOfEvents w.getEntries)).andThen
  ((call (Call.InfoWillProcess (entriesToProcess w argv))).andThen
  ((call Call.calibToolCtor).andThen
  ((CHECK Call.calibToolInit w.calibToolInit CheckArg.calibToolInit).andThen
  ((call Call.recommendedSystematics).andThen
  ((call Call.make_systematics_vector).andThen
  (printSysList w.sysList)))))))))))))

/-- The function `main(argc, argv)`, with `argc = argv.length`. -/
def main (w : World) (argv : List String) : Result :=
  if argv.length < 2 then
    ⟨[Call.ErrorNoFileName, Call.ErrorUsage], Outcome.exit EXIT_FAILURE⟩
  else
    let body :=
      (setup w argv).andThen
      ((call Call.CALLGRIND_START_INSTRUMENTATION).andThen
      (eventLoop w (evtPrintFreq (entriesToProcess w argv)) (entriesToProcess w argv)))
    match body.ret with
    | some o => ⟨body.trace, o⟩
    | none => ⟨body.trace ++ [Call.CALLGRIND_STOP_INSTRUMENTATION], Outcome.exit EXIT_SUCCESS⟩

/-! ## Runs without a failing external call -/

/-- No `applyCorrection` on a photon of the copy made for `sys` in iteration
`entry` reports `Error`, and `applySystematicVariation` succeeds there. -/
def SysOk (w : World) (entry sys : Nat) : Prop :=
  w.applySystematicVariation entry sys = true ∧
    ∀ p < w.photons entry, w.applyCorrection entry sys p ≠ CorrectionCode.Error

/-- No external call of iteration `entry` fails. -/
def EventOk (w : World) (entry : Nat) : Prop :=
  w.retrieveEventInfo entry = true ∧ w.retrievePhotons entry = true ∧
    ∀ s < w.sysList.length, SysOk w entry s

/-- The four checked calls before the event loop succeed. -/
def SetupOk (w : World) (argv : List String) : Prop :=
  w.xAODInit = true ∧ w.TFileOpen (argv.getD 1 "") = true ∧ w.readFrom = true ∧
    w.calibToolInit = true

/-- No external call fails in the run: the set-up succeeds and so does every
call of every iteration below the number of events to process. -/
def RunOk (w : World) (argv : List String) : Prop :=
  SetupOk w argv ∧ ∀ e < (entriesToProcess w argv).toNat, EventOk w e

instance (w : World) (entry sys : Nat) : Decidable (SysOk w entry sys) := by
  unfold SysOk; infer_instance

instance (w : World) (entry : Nat) : Decidable (EventOk w entry) := by
  unfold EventOk; infer_instance

instance (w : World) (argv : List String) : Decidable (SetupOk w argv) := by
  unfold SetupOk; infer_instance

instance (w : World) (argv : List String) : Decidable (RunOk w argv) := by
  unfold RunOk; infer_instance

/-! ## Observations on traces -/

/-- The calls of the event loop into the event store and the calibration tool. -/
def Call.isLoopCall : Call → Bool
  | Call.retrieveEventInfo _ => true
  | Call.retrievePhotons _ => true
  | Call.applySystematicVariation _ _ => true
  | Call.shallowCopyContainer _ _ => true
  | Call.applyCorrection _ _ _ => true
  | _ => false

/-- Log output: `Error`, `Info` and `std::cout` lines. -/
def Call.isLog : Call → Bool
  | Call.ErrorNoFileName => true
  | Call.ErrorUsage => true
  | Call.ErrorFailedToExecute _ => true
  | Call.ErrorProblemInApplyCorrection => true
  | Call.InfoOpeningFile _ => true
  | Call.InfoNumberOfEvents _ => true
  | Call.InfoWillProcess _ => true
  | Call.InfoListOfSystematics => true
  | Call.coutSysName _ => true
  | Call.InfoProcessingEvent _ => true
  | _ => false

/-- The progress line of the event loop. -/
def Call.isProgress : Call → Bool
  | Call.InfoProcessingEvent _ => true
  | _ => false

/-- The calls into the calibration tool and the copy made for it in iteration
`entry`: `applySystematicVariation`, `shallowCopyContainer`, `applyCorrection`. -/
def Call.isToolCallAt (entry : Nat) : Call → Bool
  | Call.applySystematicVariation e _ => e == entry
  | Call.shallowCopyContainer e _ => e == entry
  | Call.applyCorrection e _ _ => e == entry
  | _ => false

/-- The `applyCorrection` calls of iteration `entry`. -/
def Call.isApplyCorrectionAt (entry : Nat) : Call → Bool
  | Call.applyCorrection e _ _ => e == entry
  | _ => false

/-- The event indices for which the loop body ran, in order: every iteration
begins with exactly one retrieval of the event info. -/
def eventsProcessed (t : List Call) : List Nat :=
  t.filterMap fun c =>
    match c with
    | Call.retrieveEventInfo e => some e
    | _ => none

/-- The calls of the set-up when every checked call succeeds. -/
def setupTrace (w : World) (argv : List String) : List Call :=
  [Call.xAODInit, Call.enableFailure, Call.InfoOpeningFile (argv.getD 1 ""),
   Call.TFileOpen (argv.getD 1 ""), Call.TEventCtor, Call.readFrom, Call.getEntries,
   Call.InfoNumberOfEvents w.getEntries, Call.InfoWillProcess (entriesToProcess w argv),
   Call.calibToolCtor, Call.calibToolInit, Call.recommendedSystematics,
   Call.make_systematics_vector, Call.InfoListOfSystematics] ++
  w.sysList.map fun sys => Call.coutSysName (if sys.empty then "Nominal" else sys.name)

/-- The calls made for one systematic variation when none of them fails. -/
def sysTrace (entry photons sys : Nat) : List Call :=
  Call.applySystematicVariation entry sys :: Call.shallowCopyContainer entry sys ::
    (List.range photons).map (Call.applyCorrection entry sys)

/-- The calls of one iteration of the event loop when none of them fails. -/
def eventTrace (w : World) (freq : Int) (entry : Nat) : List Call :=
  (printProgress freq entry).trace ++
    (Call.retrieveEventInfo entry :: Call.retrievePhotons entry ::
      (List.range w.sysList.length).flatMap (sysTrace entry (w.photons entry)))

/-! ## Concrete runs -/

/-- A world in which every external call succeeds: the store has `E` entries,
`atoll` yields `C`, the systematics list is `sys`, and every event has `P`
photons. -/
def allOk (E C : Int) (sys : List SystematicSet) (P : Nat) : World :=
  { xAODInit := true, TFileOpen := fun _ => true, readFrom := true, getEntries := E,
    atoll := fun _ => C, calibToolInit := true, sysList := sys,
    retrieveEventInfo := fun _ => true, retrievePhotons := fun _ => true,
    photons := fun _ => P, applySystematicVariation := fun _ _ => true,
    applyCorrection := fun _ _ _ => CorrectionCode.Ok }

/-- The nominal set and one variation. -/
def twoSysts : List SystematicSet := [⟨true, ""⟩, ⟨false, "EG_SCALE_ALL__1up"⟩]

/-- The number of progress lines in a trace. -/
def progressLines (t : List Call) : Nat := (t.filter Call.isProgress).length

/-- Command line with a file name and no event cap. -/
def argvNoCap : List String := ["photonCalibPerf", "f.root"]

/-- A store of `5 * 2^32 + 1` entries, every call succeeding, an empty
systematics list and no photons. -/
def worldFreqOne : World := allOk 21474836481 0 [] 0

/-- A store of `5 * (2^32 - 1) + 1` entries, every call succeeding. -/
def worldFreqZero : World := allOk 21474836476 0 twoSysts 2

/-- What a block guarantees about the call `applyCorrection` on photon `p` of
the copy for variation `s` in iteration `k`: if the call reports `Error`, only
the error message follows and the block returns 1; if it does not, the error
message does not follow, and when the call is the last of the block the block
falls through. -/
def CorrectionRule (w : World) (k s p : Nat) (st : Step) : Prop :=
  ∀ pre post, st.trace = pre ++ Call.applyCorrection k s p :: post →
    (w.applyCorrection k s p = CorrectionCode.Error →
      post = [Call.ErrorProblemInApplyCorrection] ∧ st.ret = some (Outcome.exit 1)) ∧
    (w.applyCorrection k s p ≠ CorrectionCode.Error →
      (post = [] → st.ret = none) ∧ post.head? ≠ some Call.ErrorProblemInApplyCorrection)

/-- A block that makes a call before it returns, and does not begin with the
message of a failed correction. -/
def Continues (st : Step) : Prop :=
  (st.trace = [] → st.ret = none) ∧
    st.trace.head? ≠ some Call.ErrorProblemInApplyCorrection

/-- A world in which `applyCorrection` reports `Error` on photon 0 of the copy
for variation 1 in iteration 0 and the out-of-validity status elsewhere. -/
def worldCorrectionError : World :=
  { allOk 3 0 twoSysts 2 with
    applyCorrection := fun e s p =>
      if e = 0 ∧ s = 1 ∧ p = 0 then CorrectionCode.Error
      else CorrectionCode.OutOfValidityRange }

/-- A world in which the first retrieval of the event info fails. -/
def worldRetrieveFails : World :=
  { allOk 3 0 twoSysts 2 with retrieveEventInfo := fun _ => false }

/-! ## Sequencing lemmas -/

theorem andThen_of_none {a : Step} (b : Step) (h : a.ret = none) :
    a.andThen b = ⟨a.trace ++ b.trace, b.ret⟩ := by
  simp [Step.andThen, h]

theorem andThen_of_some {a : Step} (b : Step) {o : Outcome} (h : a.ret = some o) :
    a.andThen b = a := by
  simp [Step.andThen, h]

theorem andThen_ret_none_iff (a b : Step) :
    (a.andThen b).ret = none ↔ a.ret = none ∧ b.ret = none := by
  cases h : a.ret <;> simp [Step.andThen, h]

theorem call_andThen (c : Call) (b : Step) : (call c).andThen b = ⟨c :: b.trace, b.ret⟩ := by
  simp [call, Step.andThen]

theorem CHECK_true (c : Call) (arg : CheckArg) : CHECK c true arg = call c := by
  simp [CHECK, call]

theorem CHECK_false (c : Call) (arg : CheckArg) :
    CHECK c false arg = ⟨[c, Call.ErrorFailedToExecute arg], some (Outcome.exit 1)⟩ := by
  simp [CHECK]

theorem forEach_ret_none_iff {α : Type} (body : α → Step) (xs : List α) :
    (forEach body xs).ret = none ↔ ∀ x ∈ xs, (body x).ret = none := by
  induction xs with
  | nil => simp [forEach]
  | cons x xs ih => simp [forEach, andThen_ret_none_iff, ih]

theorem forEach_of_none {α : Type} (body : α → Step) (xs : List α)
    (h : ∀ x ∈ xs, (body x).ret = none) :
    forEach body xs = ⟨xs.flatMap fun x => (body x).trace, none⟩ := by
  induction xs with
  | nil => simp [forEach]
  | cons x xs ih =>
    have hx : (body x).ret = none := h x (List.mem_cons_self _ _)
    have hxs : ∀ y ∈ xs, (body y).ret = none := fun y hy => h y (List.mem_cons_of_mem _ hy)
    simp [forEach, andThen_of_none _ hx, ih hxs]

theorem forEach_ret_some {α : Type} (body : α → Step) (xs : List α) {o : Outcome}
    (h : (forEach body xs).ret = some o) : ∃ x ∈ xs, (body x).ret = some o := by
  induction xs with
  | nil => simp [forEach] at h
  | cons x xs ih =>
    cases hx : (body x).ret with
    | none =>
      rw [forEach, andThen_of_none _ hx] at h
      obtain ⟨y, hy, hyo⟩ := ih h
      exact ⟨y, List.mem_cons_of_mem _ hy, hyo⟩
    | some o2 =>
      rw [forEach, andThen_of_some _ hx] at h
      exact ⟨x, List.mem_cons_self _ _, h⟩

theorem andThen_trace_forall (P : Call → Prop) (a b : Step)
    (ha : ∀ c ∈ a.trace, P c) (hb : ∀ c ∈ b.trace, P c) :
    ∀ c ∈ (a.andThen b).trace, P c := by
  cases h : a.ret with
  | none =>
    rw [andThen_of_none _ h]
    intro c hc
    rcases List.mem_append.mp hc with hc | hc
    · exact ha c hc
    · exact hb c hc
  | some o =>
    rw [andThen_of_some _ h]
    exact ha

theorem forEach_trace_forall {α : Type} (P : Call → Prop) (body : α → Step) (xs : List α)
    (h : ∀ x ∈ xs, ∀ c ∈ (body x).trace, P c) : ∀ c ∈ (forEach body xs).trace, P c := by
  induction xs with
  | nil => simp [forEach]
  | cons x xs ih =>
    rw [forEach]
    exact andThen_trace_forall P _ _ (h x (List.mem_cons_self _ _))
      (ih fun y hy => h y (List.mem_cons_of_mem _ hy))

/-! ## The blocks of `main` when no call fails -/

theorem photonBody_ret_none_iff (w : World) (e s p : Nat) :
    (photonBody w e s p).ret = none ↔ w.applyCorrection e s p ≠ CorrectionCode.Error := by
  unfold photonBody
  split <;> simp_all

theorem photonBody_of_ok (w : World) (e s p : Nat)
    (h : w.applyCorrection e s p ≠ CorrectionCode.Error) :
    photonBody w e s p = call (Call.applyCorrection e s p) := by
  simp [photonBody, h, call]

theorem photonBody_of_error (w : World) (e s p : Nat)
    (h : w.applyCorrection e s p = CorrectionCode.Error) :
    photonBody w e s p =
      ⟨[Call.applyCorrection e s p, Call.ErrorProblemInApplyCorrection],
        some (Outcome.exit EXIT_FAILURE)⟩ := by
  simp [photonBody, h]

theorem photonLoop_of_ok (w : World) (e s n : Nat)
    (h : ∀ p < n, w.applyCorrection e s p ≠ CorrectionCode.Error) :
    forEach (photonBody w e s) (List.range n) =
      ⟨(List.range n).map (Call.applyCorrection e s), none⟩ := by
  rw [forEach_of_none]
  · congr 1
    rw [List.map_eq_flatMap]
    apply List.flatMap_congr
    intro p hp
    rw [photonBody_of_ok w e s p (h p (List.mem_range.mp hp))]
    rfl
  · intro p hp
    exact (photonBody_ret_none_iff w e s p).mpr (h p (List.mem_range.mp hp))

theorem sysBody_of_ok (w : World) (e s : Nat) (h : SysOk w e s) :
    sysBody w e (w.photons e) s = ⟨sysTrace e (w.photons e) s, none⟩ := by
  obtain ⟨h1, h2⟩ := h
  simp [sysBody, h1, CHECK_true, call_andThen, shallowCopyContainer,
    photonLoop_of_ok w e s _ h2, sysTrace]

theorem sysBody_ret_none_iff (w : World) (e s : Nat) :
    (sysBody w e (w.photons e) s).ret = none ↔ SysOk w e s := by
  unfold sysBody SysOk
  cases hsv : w.applySystematicVariation e s
  · simp [CHECK_false, Step.andThen]
  · simp [CHECK_true, call_andThen, forEach_ret_none_iff, photonBody_ret_none_iff,
      shallowCopyContainer]

theorem printProgress_ret (freq : Int) (e : Nat) (h : freq ≠ 0) :
    (printProgress freq e).ret = none := by
  unfold printProgress cmod
  simp only [h, if_false]
  split <;> simp [call]

theorem printProgress_of_zero (e : Nat) :
    printProgress 0 e = ⟨[], some Outcome.moduloByZero⟩ := by
  simp [printProgress, cmod]

theorem sysLoop_of_ok (w : World) (e : Nat) (h : ∀ s < w.sysList.length, SysOk w e s) :
    forEach (sysBody w e (w.photons e)) (List.range w.sysList.length) =
      ⟨(List.range w.sysList.length).flatMap (sysTrace e (w.photons e)), none⟩ := by
  rw [forEach_of_none]
  · congr 1
    apply List.flatMap_congr
    intro s hs
    rw [sysBody_of_ok w e s (h s (List.mem_range.mp hs))]
  · intro s hs
    exact (sysBody_ret_none_iff w e s).mpr (h s (List.mem_range.mp hs))

theorem eventBody_of_ok (w : World) (freq : Int) (e : Nat) (hf : freq ≠ 0)
    (h : EventOk w e) : eventBody w freq e = ⟨eventTrace w freq e, none⟩ := by
  obtain ⟨h1, h2, h3⟩ := h
  simp [eventBody, andThen_of_none _ (printProgress_ret freq e hf), h1, h2, CHECK_true,
    call_andThen, sysLoop_of_ok w e h3, eventTrace]

theorem eventBody_ret_none_iff (w : World) (freq : Int) (e : Nat) (hf : freq ≠ 0) :
    (eventBody w freq e).ret = none ↔ EventOk w e := by
  unfold eventBody EventOk
  rw [andThen_ret_none_iff]
  simp only [printProgress_ret freq e hf, true_and]
  cases h1 : w.retrieveEventInfo e
  · simp [CHECK_false, Step.andThen]
  · cases h2 : w.retrievePhotons e
    · simp [CHECK_false, CHECK_true, call_andThen, Step.andThen, call]
    · simp [CHECK_true, call_andThen, forEach_ret_none_iff, sysBody_ret_none_iff]

theorem eventLoop_of_ok (w : World) (freq entries : Int) (hf : 0 < entries → freq ≠ 0)
    (h : ∀ e < entries.toNat, EventOk w e) :
    eventLoop w freq entries =
      ⟨(List.range entries.toNat).flatMap (eventTrace w freq), none⟩ := by
  unfold eventLoop
  rw [forEach_of_none]
  · congr 1
    apply List.flatMap_congr
    intro e he
    have he2 := List.mem_range.mp he
    rw [eventBody_of_ok w freq e (hf (by omega)) (h e he2)]
  · intro e he
    have he2 := List.mem_range.mp he
    exact (eventBody_ret_none_iff w freq e (hf (by omega))).mpr (h e he2)

theorem eventLoop_of_nonpos (w : World) (freq entries : Int) (h : entries ≤ 0) :
    eventLoop w freq entries = ⟨[], none⟩ := by
  have h0 : entries.toNat = 0 := by omega
  simp [eventLoop, h0, forEach]

theorem eventLoop_of_zero_freq (w : World) (entries : Int) (h : 0 < entries) :
    eventLoop w 0 entries = ⟨[], some Outcome.moduloByZero⟩ := by
  obtain ⟨n, hn⟩ : ∃ n, entries.toNat = n + 1 := ⟨entries.toNat - 1, by omega⟩
  simp [eventLoop, hn, List.range_succ_eq_map, forEach, eventBody, printProgress_of_zero,
    Step.andThen]

theorem printSysList_eq (sysList : List SystematicSet) :
    printSysList sysList =
      ⟨Call.InfoListOfSystematics ::
        sysList.map fun sys => Call.coutSysName (if sys.empty then "Nominal" else sys.name),
        none⟩ := by
  unfold printSysList
  rw [call_andThen, forEach_of_none]
  · simp [call, List.map_eq_flatMap]
  · intro x _
    rfl

theorem setup_of_ok (w : World) (argv : List String) (h : SetupOk w argv) :
    setup w argv = ⟨setupTrace w argv, none⟩ := by
  obtain ⟨h1, h2, h3, h4⟩ := h
  unfold setup
  rw [h1, h2, h3, h4]
  simp only [CHECK_true, call_andThen, printSysList_eq, setupTrace, List.cons_append,
    List.nil_append]

/-- The whole run when the set-up succeeds: the calls of the set-up, the start
signal, the calls of the event loop, and the stop signal and exit code 0 when
the loop falls through. -/
theorem main_of_setupOk (w : World) (argv : List String) (hargc : 2 ≤ argv.length)
    (h : SetupOk w argv) :
    main w argv =
      match (eventLoop w (evtPrintFreq (entriesToProcess w argv))
          (entriesToProcess w argv)).ret with
      | some o =>
        ⟨setupTrace w argv ++ Call.CALLGRIND_START_INSTRUMENTATION ::
          (eventLoop w (evtPrintFreq (entriesToProcess w argv))
            (entriesToProcess w argv)).trace, o⟩
      | none =>
        ⟨setupTrace w argv ++ Call.CALLGRIND_START_INSTRUMENTATION ::
          (eventLoop w (evtPrintFreq (entriesToProcess w argv))
            (entriesToProcess w argv)).trace ++ [Call.CALLGRIND_STOP_INSTRUMENTATION],
          Outcome.exit EXIT_SUCCESS⟩ := by
  have h2 : ¬ argv.length < 2 := by omega
  simp only [main, h2, if_false, setup_of_ok w argv h, call_andThen]
  simp only [Step.andThen]

/-- The whole run when no external call fails and the progress modulo is defined. -/
theorem main_of_ok (w : World) (argv : List String) (hargc : 2 ≤ argv.length)
    (h : RunOk w argv)
    (hf : 0 < entriesToProcess w argv → evtPrintFreq (entriesToProcess w argv) ≠ 0) :
    main w argv =
      ⟨setupTrace w argv ++ Call.CALLGRIND_START_INSTRUMENTATION ::
        (List.range (entriesToProcess w argv).toNat).flatMap
          (eventTrace w (evtPrintFreq (entriesToProcess w argv))) ++
        [Call.CALLGRIND_STOP_INSTRUMENTATION], Outcome.exit EXIT_SUCCESS⟩ := by
  rw [main_of_setupOk w argv hargc h.1, eventLoop_of_ok w _ _ hf h.2]

/-- The run in which the narrowed print frequency is zero: it ends in the
modulo by zero of the first iteration, before any call of the loop. -/
theorem main_of_zero_freq (w : World) (argv : List String) (hargc : 2 ≤ argv.length)
    (h : SetupOk w argv) (hpos : 0 < entriesToProcess w argv)
    (hf : evtPrintFreq (entriesToProcess w argv) = 0) :
    main w argv =
      ⟨setupTrace w argv ++ [Call.CALLGRIND_START_INSTRUMENTATION], Outcome.moduloByZero⟩ := by
  rw [main_of_setupOk w argv hargc h, hf, eventLoop_of_zero_freq w _ hpos]

/-! ## Filtering the trace of a successful run -/

theorem printProgress_trace (freq : Int) (e : Nat) :
    (printProgress freq e).trace = [] ∨
      (printProgress freq e).trace = [Call.InfoProcessingEvent e] := by
  unfold printProgress
  split
  · simp
  · split <;> simp [call]

theorem flatMap_range_single {β : Type} (T : Nat → List β) (k n : Nat) :
    (List.range n).flatMap (fun e => if e = k then T e else []) =
      if k < n then T k else [] := by
  induction n with
  | zero => simp
  | succ n ih =>
    rw [List.range_succ, List.flatMap_append, ih]
    by_cases h1 : k < n
    · have h2 : ¬ n = k := by omega
      have h3 : k < n + 1 := by omega
      simp [h1, h2, h3]
    · by_cases h2 : n = k
      · subst h2
        simp
      · have h3 : ¬ k < n + 1 := by omega
        simp [h1, h2, h3]

theorem filter_toolCall_sysTrace (k e P s : Nat) :
    (sysTrace e P s).filter (Call.isToolCallAt k) = if e = k then sysTrace e P s else [] := by
  by_cases h : e = k
  · subst h
    simp [sysTrace, Call.isToolCallAt, List.filter_map, Function.comp_def]
  · simp [sysTrace, Call.isToolCallAt, List.filter_map, Function.comp_def, h]

theorem filter_toolCall_eventTrace (w : World) (freq : Int) (k e : Nat) :
    (eventTrace w freq e).filter (Call.isToolCallAt k) =
      if e = k then (List.range w.sysList.length).flatMap (sysTrace e (w.photons e))
      else [] := by
  have hp : (printProgress freq e).trace.filter (Call.isToolCallAt k) = [] := by
    rcases printProgress_trace freq e with h | h <;> simp [h, Call.isToolCallAt]
  unfold eventTrace
  rw [List.filter_append, hp]
  simp only [List.nil_append, List.filter_cons, Call.isToolCallAt, List.filter_flatMap,
    filter_toolCall_sysTrace]
  by_cases h : e = k <;> simp [h]

theorem filter_corr_sysTrace (k e P s : Nat) :
    (sysTrace e P s).filter (Call.isApplyCorrectionAt k) =
      if e = k then (List.range P).map (Call.applyCorrection e s) else [] := by
  by_cases h : e = k
  · subst h
    simp [sysTrace, Call.isApplyCorrectionAt, List.filter_map, Function.comp_def]
  · simp [sysTrace, Call.isApplyCorrectionAt, List.filter_map, Function.comp_def, h]

theorem filter_corr_eventTrace (w : World) (freq : Int) (k e : Nat) :
    (eventTrace w freq e).filter (Call.isApplyCorrectionAt k) =
      if e = k then
        (List.range w.sysList.length).flatMap
          (fun s => (List.range (w.photons e)).map (Call.applyCorrection e s))
      else [] := by
  have hp : (printProgress freq e).trace.filter (Call.isApplyCorrectionAt k) = [] := by
    rcases printProgress_trace freq e with h | h <;> simp [h, Call.isApplyCorrectionAt]
  unfold eventTrace
  rw [List.filter_append, hp]
  simp only [List.nil_append, List.filter_cons, Call.isApplyCorrectionAt, List.filter_flatMap,
    filter_corr_sysTrace]
  by_cases h : e = k <;> simp [h]

theorem length_flatMap_const {α β : Type} (f : α → List β) (P : Nat) (l : List α)
    (h : ∀ a ∈ l, (f a).length = P) : (l.flatMap f).length = l.length * P := by
  induction l with
  | nil => simp
  | cons a l ih =>
    rw [List.flatMap_cons, List.length_append, h a (List.mem_cons_self _ _),
      ih fun b hb => h b (List.mem_cons_of_mem _ hb), List.length_cons]
    ring

theorem filter_setupTrace_of_loopOnly (w : World) (argv : List String) (p : Call → Bool)
    (hp : ∀ c, c.isLoopCall = false → p c = false) :
    (setupTrace w argv).filter p = [] := by
  rw [List.filter_eq_nil_iff]
  intro c hc
  have : c.isLoopCall = false := by
    simp only [setupTrace, List.mem_append, List.mem_cons, List.mem_map] at hc
    rcases hc with hc | ⟨s, _, rfl⟩
    · rcases hc with rfl | rfl | rfl | rfl | rfl | rfl | rfl | rfl | rfl | rfl | rfl | rfl |
        rfl | rfl | hc
      all_goals first | rfl | simp at hc
    · rfl
  simp [hp c this]

theorem eventsProcessed_eventTrace (w : World) (freq : Int) (e : Nat) :
    eventsProcessed (eventTrace w freq e) = [e] := by
  have hp : eventsProcessed (printProgress freq e).trace = [] := by
    rcases printProgress_trace freq e with h | h <;> simp [h, eventsProcessed]
  have hs : ∀ l : List Nat, eventsProcessed (l.flatMap (sysTrace e (w.photons e))) = [] := by
    intro l
    simp only [eventsProcessed, List.filterMap_eq_nil_iff, List.mem_flatMap]
    rintro c ⟨s, _, hc⟩
    simp only [sysTrace, List.mem_cons, List.mem_map] at hc
    rcases hc with rfl | rfl | ⟨p, _, rfl⟩ <;> rfl
  unfold eventTrace
  unfold eventsProcessed at *
  rw [List.filterMap_append, hp, List.filterMap_cons, List.filterMap_cons]
  simp only [List.nil_append]
  rw [hs]

theorem eventsProcessed_setupTrace (w : World) (argv : List String) :
    eventsProcessed (setupTrace w argv) = [] := by
  simp only [eventsProcessed, List.filterMap_eq_nil_iff]
  intro c hc
  simp only [setupTrace, List.mem_append, List.mem_cons, List.mem_map] at hc
  rcases hc with hc | ⟨s, _, rfl⟩
  · rcases hc with rfl | rfl | rfl | rfl | rfl | rfl | rfl | rfl | rfl | rfl | rfl | rfl |
      rfl | rfl | hc
    all_goals first | rfl | simp at hc
  · rfl

theorem eventsProcessed_flatMap_eventTrace (w : World) (freq : Int) (n : Nat) :
    eventsProcessed ((List.range n).flatMap (eventTrace w freq)) = List.range n := by
  have h : ∀ l : List Nat, eventsProcessed (l.flatMap (eventTrace w freq)) = l := by
    intro l
    induction l with
    | nil => rfl
    | cons a l ih =>
      have := eventsProcessed_eventTrace w freq a
      unfold eventsProcessed at *
      rw [List.flatMap_cons, List.filterMap_append, this, ih]
      rfl
  exact h _

/-- The events processed by a run in which no call fails and the progress
modulo is defined are the indices below the number of events to process. -/
theorem eventsProcessed_of_ok (w : World) (argv : List String) (hargc : 2 ≤ argv.length)
    (h : RunOk w argv)
    (hf : 0 < entriesToProcess w argv → evtPrintFreq (entriesToProcess w argv) ≠ 0) :
    (main w argv).outcome = Outcome.exit 0 ∧
      eventsProcessed (main w argv).trace = List.range (entriesToProcess w argv).toNat := by
  rw [main_of_ok w argv hargc h hf]
  refine ⟨rfl, ?_⟩
  have h1 := eventsProcessed_setupTrace w argv
  have h2 := eventsProcessed_flatMap_eventTrace w (evtPrintFreq (entriesToProcess w argv))
    (entriesToProcess w argv).toNat
  unfold eventsProcessed at *
  simp only [List.filterMap_append, List.filterMap_cons, h1, h2, List.nil_append]
  simp

/-! ## Properties of `main` -/

/-- C1: when `main` is called without a file-path argument (`argc < 2`) it
returns the non-zero status `EXIT_FAILURE`, and the only calls it makes are the
two `Error` lines of the usage message: no framework initialisation, file open,
event-store, calibration-tool or profiling call is made. -/
theorem main_without_argument (w : World) (argv : List String) (h : argv.length < 2) :
    (main w argv).outcome = Outcome.exit EXIT_FAILURE ∧ EXIT_FAILURE ≠ 0 ∧
      (main w argv).trace = [Call.ErrorNoFileName, Call.ErrorUsage] ∧
      (main w argv).trace.filter (fun c => !c.isLog) = [] := by
  simp [main, h, EXIT_FAILURE, Call.isLog]

theorem main_without_argument_witness :
    (["photonCalibPerf"] : List String).length < 2 ∧
      (main (allOk 3 0 twoSysts 2) ["photonCalibPerf"]).outcome = Outcome.exit EXIT_FAILURE ∧
      EXIT_FAILURE ≠ 0 ∧
      (main (allOk 3 0 twoSysts 2) ["photonCalibPerf"]).trace =
        [Call.ErrorNoFileName, Call.ErrorUsage] ∧
      (main (allOk 3 0 twoSysts 2) ["photonCalibPerf"]).trace.filter (fun c => !c.isLog) = [] :=
  ⟨by decide, main_without_argument (allOk 3 0 twoSysts 2) ["photonCalibPerf"] (by decide)⟩

/-- C2 (amended): in a run in which no external call fails, with a store of
`E` entries and a second argument that parses to `C` with `0 ≤ C < E` and a
non-zero narrowed print frequency for `C`, `main` exits with 0 and the loop
body runs exactly `C` times, for the indices `0..C-1`; that number is the
minimum of `C` and `E`. -/
theorem events_capped (w : World) (argv : List String) (hargc : 2 < argv.length)
    (hok : RunOk w argv) (h0 : 0 ≤ w.atoll (argv.getD 2 ""))
    (hlt : w.atoll (argv.getD 2 "") < w.getEntries)
    (hf : evtPrintFreq (w.atoll (argv.getD 2 "")) ≠ 0) :
    (main w argv).outcome = Outcome.exit 0 ∧
      eventsProcessed (main w argv).trace = List.range (w.atoll (argv.getD 2 "")).toNat ∧
      ((eventsProcessed (main w argv).trace).length : Int) =
        min (w.atoll (argv.getD 2 "")) w.getEntries := by
  have hN : entriesToProcess w argv = w.atoll (argv.getD 2 "") := by
    unfold entriesToProcess
    rw [if_pos hargc]
    omega
  have h := eventsProcessed_of_ok w argv (by omega) hok (by rw [hN]; exact fun _ => hf)
  rw [hN] at h
  refine ⟨h.1, h.2, ?_⟩
  rw [h.2, List.length_range]
  omega

theorem events_capped_witness :
    2 < ["photonCalibPerf", "f.root", "2"].length ∧
      RunOk (allOk 3 2 twoSysts 2) ["photonCalibPerf", "f.root", "2"] ∧
      (main (allOk 3 2 twoSysts 2) ["photonCalibPerf", "f.root", "2"]).outcome =
        Outcome.exit 0 ∧
      eventsProcessed (main (allOk 3 2 twoSysts 2) ["photonCalibPerf", "f.root", "2"]).trace =
        [0, 1] :=
  have h := events_capped (allOk 3 2 twoSysts 2) ["photonCalibPerf", "f.root", "2"]
    (by decide) (by decide) (by decide) (by decide) (by decide)
  ⟨by decide, by decide, h.1, h.2.1⟩

/-- C2 as stated fails for a negative cap: with `E = 3` entries and a second
argument that parses to `C = -1 < E`, no call fails and the run exits with 0,
but no event is processed, which is neither `C` events nor `min C E`. -/
theorem negative_cap_skips_all_events :
    RunOk (allOk 3 (-1) twoSysts 2) ["photonCalibPerf", "f.root", "-1"] ∧
      (allOk 3 (-1) twoSysts 2).atoll "-1" = -1 ∧
      (allOk 3 (-1) twoSysts 2).atoll "-1" < (allOk 3 (-1) twoSysts 2).getEntries ∧
      (main (allOk 3 (-1) twoSysts 2) ["photonCalibPerf", "f.root", "-1"]).outcome =
        Outcome.exit 0 ∧
      eventsProcessed
        (main (allOk 3 (-1) twoSysts 2) ["photonCalibPerf", "f.root", "-1"]).trace = [] ∧
      ((eventsProcessed
        (main (allOk 3 (-1) twoSysts 2) ["photonCalibPerf", "f.root", "-1"]).trace).length :
          Int) ≠ min (-1) 3 := by
  decide

/-- C10: when the second argument parses to zero or a negative number and the
four checked calls of the set-up succeed, no event is processed: the trace has
no retrieve, `applySystematicVariation`, shallow-copy or `applyCorrection`
call, the start signal is directly followed by the stop signal, and `main`
returns 0. -/
theorem nonpositive_cap_processes_nothing (w : World) (argv : List String)
    (hargc : 2 < argv.length) (hcap : w.atoll (argv.getD 2 "") ≤ 0) (hok : SetupOk w argv) :
    (main w argv).outcome = Outcome.exit 0 ∧
      (main w argv).trace = setupTrace w argv ++
        [Call.CALLGRIND_START_INSTRUMENTATION, Call.CALLGRIND_STOP_INSTRUMENTATION] ∧
      (main w argv).trace.filter Call.isLoopCall = [] ∧
      eventsProcessed (main w argv).trace = [] := by
  have hN : entriesToProcess w argv ≤ 0 := by
    unfold entriesToProcess
    rw [if_pos hargc]
    omega
  have hN0 : (entriesToProcess w argv).toNat = 0 := by omega
  have hrun : RunOk w argv := ⟨hok, by rw [hN0]; intro e he; omega⟩
  have hm := main_of_ok w argv (by omega) hrun (by omega)
  rw [hN0] at hm
  simp only [List.range_zero, List.flatMap_nil, List.nil_append, List.cons_append] at hm
  have he := eventsProcessed_of_ok w argv (by omega) hrun (by omega)
  rw [hN0] at he
  refine ⟨he.1, ?_, ?_, he.2⟩
  · rw [hm]
    simp
  · rw [hm]
    simp only [List.filter_append, filter_setupTrace_of_loopOnly w argv Call.isLoopCall
      (fun c hc => hc)]
    rfl

theorem nonpositive_cap_processes_nothing_witness :
    (main (allOk 3 0 twoSysts 2) ["photonCalibPerf", "f.root", "none"]).outcome =
        Outcome.exit 0 ∧
      (main (allOk 3 0 twoSysts 2) ["photonCalibPerf", "f.root", "none"]).trace =
        setupTrace (allOk 3 0 twoSysts 2) ["photonCalibPerf", "f.root", "none"] ++
          [Call.CALLGRIND_START_INSTRUMENTATION, Call.CALLGRIND_STOP_INSTRUMENTATION] ∧
      (main (allOk 3 0 twoSysts 2) ["photonCalibPerf", "f.root", "none"]).trace.filter
        Call.isLoopCall = [] ∧
      eventsProcessed (main (allOk 3 0 twoSysts 2) ["photonCalibPerf", "f.root", "none"]).trace
        = [] :=
  nonpositive_cap_processes_nothing (allOk 3 0 twoSysts 2) ["photonCalibPerf", "f.root", "none"]
    (by decide) (by decide) (by decide)

theorem mem_eventsProcessed (t : List Call) (k : Nat) :
    k ∈ eventsProcessed t ↔ Call.retrieveEventInfo k ∈ t := by
  unfold eventsProcessed
  rw [List.mem_filterMap]
  constructor
  · rintro ⟨c, hc, h⟩
    cases c <;> simp at h
    subst h
    exact hc
  · intro h
    exact ⟨_, h, rfl⟩

/-- A run whose trace holds the event-info retrieval of iteration `k` was
started with a file argument, has a defined progress modulo, and `k` is below
the number of events to process. -/
theorem processed_event_facts (w : World) (argv : List String) (hok : RunOk w argv) (k : Nat)
    (hk : Call.retrieveEventInfo k ∈ (main w argv).trace) :
    2 ≤ argv.length ∧
      (0 < entriesToProcess w argv → evtPrintFreq (entriesToProcess w argv) ≠ 0) ∧
      k < (entriesToProcess w argv).toNat := by
  have hargc : 2 ≤ argv.length := by
    by_contra hlt
    have h2 : argv.length < 2 := by omega
    simp [main, h2] at hk
  have hf : 0 < entriesToProcess w argv → evtPrintFreq (entriesToProcess w argv) ≠ 0 := by
    intro hpos hz
    rw [main_of_zero_freq w argv hargc hok.1 hpos hz, ← mem_eventsProcessed] at hk
    have h1 := eventsProcessed_setupTrace w argv
    unfold eventsProcessed at *
    simp [List.filterMap_append, h1] at hk
  refine ⟨hargc, hf, ?_⟩
  have h := (eventsProcessed_of_ok w argv hargc hok hf).2
  rw [← mem_eventsProcessed, h] at hk
  exact List.mem_range.mp hk

/-- C4: in a run where no external call fails, for every processed event `k`
(one whose event-info retrieval is in the trace), with `Z` entries in the
systematics list and `P` photons in the event, `applyCorrection` is called
exactly `Z * P` times for that event, and the calls into the tool for that
event are, for each variation in list order, one `applySystematicVariation`,
one shallow copy, and one `applyCorrection` per photon of the copy. -/
theorem corrections_per_event (w : World) (argv : List String) (hok : RunOk w argv) (k : Nat)
    (hk : Call.retrieveEventInfo k ∈ (main w argv).trace) :
    ((main w argv).trace.filter (Call.isApplyCorrectionAt k)).length =
        w.sysList.length * w.photons k ∧
      (main w argv).trace.filter (Call.isToolCallAt k) =
        (List.range w.sysList.length).flatMap fun s =>
          Call.applySystematicVariation k s :: Call.shallowCopyContainer k s ::
            (List.range (w.photons k)).map (Call.applyCorrection k s) := by
  obtain ⟨hargc, hf, hlt⟩ := processed_event_facts w argv hok k hk
  rw [main_of_ok w argv hargc hok hf]
  constructor
  · have hs := filter_setupTrace_of_loopOnly w argv (Call.isApplyCorrectionAt k)
      (by intro c hc; cases c <;> simp_all [Call.isLoopCall, Call.isApplyCorrectionAt])
    simp only [List.filter_append, List.filter_cons, hs, List.filter_flatMap,
      filter_corr_eventTrace, flatMap_range_single, hlt, Call.isApplyCorrectionAt]
    simp only [if_true, List.filter_nil, List.nil_append, List.append_nil, Bool.false_eq_true,
      if_false]
    rw [length_flatMap_const _ (w.photons k)]
    · simp
    · intro a _
      simp
  · have hs := filter_setupTrace_of_loopOnly w argv (Call.isToolCallAt k)
      (by intro c hc; cases c <;> simp_all [Call.isLoopCall, Call.isToolCallAt])
    simp only [List.filter_append, List.filter_cons, hs, List.filter_flatMap,
      filter_toolCall_eventTrace, flatMap_range_single, hlt, Call.isToolCallAt]
    simp only [if_true, List.filter_nil, List.nil_append, List.append_nil, Bool.false_eq_true,
      if_false]
    rfl

theorem corrections_per_event_witness :
    RunOk (allOk 3 2 twoSysts 2) ["photonCalibPerf", "f.root", "2"] ∧
      Call.retrieveEventInfo 1 ∈
        (main (allOk 3 2 twoSysts 2) ["photonCalibPerf", "f.root", "2"]).trace ∧
      ((main (allOk 3 2 twoSysts 2) ["photonCalibPerf", "f.root", "2"]).trace.filter
        (Call.isApplyCorrectionAt 1)).length = 2 * 2 :=
  ⟨by decide, by decide,
    (corrections_per_event (allOk 3 2 twoSysts 2) ["photonCalibPerf", "f.root", "2"]
      (by decide) 1 (by decide)).1⟩

/-! ## The print frequency -/

theorem evtPrintFreq_of_small (N : Int) (h1 : 1 ≤ N) (h2 : N ≤ 5 * (2 ^ 31 - 1)) :
    evtPrintFreq N = (N - 1) / 5 + 1 := by
  have h64 : wrapInt64 (N - 1) = N - 1 := by
    unfold wrapInt64
    omega
  unfold evtPrintFreq nEvtPrints
  rw [h64, Int.tdiv_eq_ediv (by omega) (by omega)]
  unfold wrapInt32
  omega

/-- C9: for `1 ≤ N ≤ 5 * (2^31 - 1)` events, the print frequency, computed in
64-bit arithmetic and narrowed to `int`, is at least 1 and is the ceiling of
`N / 5`; the modulo of the progress printout is then defined for every index
below `N` (the printout never ends the run), and index 0 prints a progress
line.  For `N ≤ 0` the loop makes no step at all, whatever the frequency. -/
theorem evtPrintFreq_ge_one (N : Int) (h1 : 1 ≤ N) (h2 : N ≤ 5 * (2 ^ 31 - 1)) :
    1 ≤ evtPrintFreq N ∧ evtPrintFreq N = ⌈(N : ℚ) / 5⌉ ∧
      (∀ i : Nat, (i : Int) < N →
        cmod i (evtPrintFreq N) = some ((i : Int).tmod (evtPrintFreq N)) ∧
        (printProgress (evtPrintFreq N) i).ret = none) ∧
      printProgress (evtPrintFreq N) 0 = call (Call.InfoProcessingEvent 0) ∧
      ∀ (w : World) (freq M : Int), M ≤ 0 → eventLoop w freq M = ⟨[], none⟩ := by
  have hf := evtPrintFreq_of_small N h1 h2
  have hpos : 1 ≤ evtPrintFreq N := by
    rw [hf]
    omega
  have hne : evtPrintFreq N ≠ 0 := by omega
  refine ⟨hpos, ?_, ?_, ?_, ?_⟩
  · symm
    rw [Int.ceil_eq_iff, hf]
    constructor
    · have h : (((N - 1) / 5 + 1 : Int) : ℚ) - 1 = (((N - 1) / 5 : Int) : ℚ) := by
        push_cast
        ring
      rw [h, lt_div_iff₀ (by norm_num)]
      have h3 : (N - 1) / 5 * 5 < N := by omega
      exact_mod_cast h3
    · rw [div_le_iff₀ (by norm_num)]
      have h3 : N ≤ ((N - 1) / 5 + 1) * 5 := by omega
      exact_mod_cast h3
  · intro i _
    exact ⟨by simp [cmod, hne], printProgress_ret _ i hne⟩
  · simp [printProgress, cmod, hne]
  · intro w freq M hM
    exact eventLoop_of_nonpos w freq M hM

theorem evtPrintFreq_ge_one_witness :
    (1 : Int) ≤ 12 ∧ (12 : Int) ≤ 5 * (2 ^ 31 - 1) ∧ 1 ≤ evtPrintFreq 12 ∧
      evtPrintFreq 12 = ⌈((12 : Int) : ℚ) / 5⌉ ∧
      printProgress (evtPrintFreq 12) 0 = call (Call.InfoProcessingEvent 0) :=
  have h := evtPrintFreq_ge_one 12 (by decide) (by decide)
  ⟨by decide, by decide, h.1, h.2.1, h.2.2.2.1⟩

/-! ## Progress lines -/

theorem printProgress_trace_eq (freq : Int) (e : Nat) (hf : freq ≠ 0) :
    (printProgress freq e).trace =
      if (e : Int).tmod freq = 0 then [Call.InfoProcessingEvent e] else [] := by
  unfold printProgress cmod
  simp only [hf, if_false]
  split <;> simp [call]

theorem filter_progress_eventTrace (w : World) (freq : Int) (e : Nat) (hf : freq ≠ 0) :
    (eventTrace w freq e).filter Call.isProgress =
      if (e : Int).tmod freq = 0 then [Call.InfoProcessingEvent e] else [] := by
  have hs : ∀ l : List Nat,
      (l.flatMap (sysTrace e (w.photons e))).filter Call.isProgress = [] := by
    intro l
    rw [List.filter_eq_nil_iff]
    intro c hc
    obtain ⟨s, _, hc⟩ := List.mem_flatMap.mp hc
    simp only [sysTrace, List.mem_cons, List.mem_map] at hc
    rcases hc with rfl | rfl | ⟨p, _, rfl⟩ <;> simp [Call.isProgress]
  unfold eventTrace
  rw [List.filter_append, printProgress_trace_eq freq e hf]
  simp only [List.filter_cons, Call.isProgress, hs]
  split <;> simp [Call.isProgress]

theorem filter_progress_setupTrace (w : World) (argv : List String) :
    (setupTrace w argv).filter Call.isProgress = [] := by
  rw [List.filter_eq_nil_iff]
  intro c hc
  simp only [setupTrace, List.mem_append, List.mem_cons, List.mem_map] at hc
  rcases hc with hc | ⟨s, _, rfl⟩
  · rcases hc with rfl | rfl | rfl | rfl | rfl | rfl | rfl | rfl | rfl | rfl | rfl | rfl |
      rfl | rfl | hc
    all_goals first | simp at hc | simp [Call.isProgress]
  · simp [Call.isProgress]

theorem length_flatMap_ite {α : Type} (p : Nat → Prop) [DecidablePred p] (g : Nat → α)
    (l : List Nat) :
    (l.flatMap fun e => if p e then [g e] else []).length = (l.filter fun e => p e).length := by
  induction l with
  | nil => rfl
  | cons a l ih =>
    rw [List.flatMap_cons, List.length_append, ih, List.filter_cons]
    by_cases h : p a <;> simp [h, Nat.add_comm]

/-- The number of progress lines of a run in which no call fails and the narrowed
print frequency is not zero: one per index whose remainder is zero. -/
theorem progressLines_of_ok (w : World) (argv : List String) (hargc : 2 ≤ argv.length)
    (h : RunOk w argv) (hf : evtPrintFreq (entriesToProcess w argv) ≠ 0) :
    progressLines (main w argv).trace =
      ((List.range (entriesToProcess w argv).toNat).filter fun e : Nat =>
        (e : Int).tmod (evtPrintFreq (entriesToProcess w argv)) = 0).length := by
  rw [main_of_ok w argv hargc h (fun _ => hf)]
  unfold progressLines
  simp only [List.filter_append, List.filter_cons, filter_progress_setupTrace,
    List.filter_flatMap, Call.isProgress, List.nil_append, Bool.false_eq_true, if_false,
    List.filter_nil, List.append_nil]
  rw [← length_flatMap_ite (fun e : Nat =>
    (e : Int).tmod (evtPrintFreq (entriesToProcess w argv)) = 0) Call.InfoProcessingEvent]
  congr 1
  apply List.flatMap_congr
  intro e _
  exact filter_progress_eventTrace w _ e hf

theorem multiples_below_le (g n : Nat) (hg : 0 < g) (hn : n ≤ 5 * g) :
    ((List.range n).filter fun e => g ∣ e).length ≤ 5 := by
  rw [← List.countP_eq_length_filter, ← Nat.count, Nat.count_eq_card_filter_range]
  have h := Finset.card_le_card_of_injOn (s := (Finset.range n).filter fun e => g ∣ e)
    (t := Finset.range 5) (fun e => e / g)
    (by
      intro e he
      have he2 := Finset.mem_filter.mp he
      have hlt : e < n := Finset.mem_range.mp he2.1
      exact Finset.mem_range.mpr ((Nat.div_lt_iff_lt_mul hg).mpr (lt_of_lt_of_le hlt hn)))
    (by
      intro a ha b hb hab
      have ha2 := (Finset.mem_filter.mp (Finset.mem_coe.mp ha)).2
      have hb2 := (Finset.mem_filter.mp (Finset.mem_coe.mp hb)).2
      simp only at hab
      rw [← Nat.div_mul_cancel ha2, ← Nat.div_mul_cancel hb2, hab])
  simpa using h

/-- The bound of the progress printout where the frequency is not narrowed: in a
run of `1 ≤ N ≤ 5 * (2^31 - 1)` events in which no call fails there are at
most `nEvtPrints` progress lines. -/
theorem progressLines_le_of_small (w : World) (argv : List String) (hargc : 2 ≤ argv.length)
    (h : RunOk w argv) (h1 : 1 ≤ entriesToProcess w argv)
    (h2 : entriesToProcess w argv ≤ 5 * (2 ^ 31 - 1)) :
    (progressLines (main w argv).trace : Int) ≤ nEvtPrints := by
  have hf := evtPrintFreq_of_small _ h1 h2
  have hne : evtPrintFreq (entriesToProcess w argv) ≠ 0 := by omega
  rw [progressLines_of_ok w argv hargc h hne]
  obtain ⟨g, hg⟩ : ∃ g : Nat, evtPrintFreq (entriesToProcess w argv) = (g : Int) :=
    ⟨(evtPrintFreq (entriesToProcess w argv)).toNat, by omega⟩
  have hb := multiples_below_le g (entriesToProcess w argv).toNat (by omega) (by omega)
  have heq : ((List.range (entriesToProcess w argv).toNat).filter fun e : Nat =>
      (e : Int).tmod (evtPrintFreq (entriesToProcess w argv)) = 0) =
      ((List.range (entriesToProcess w argv).toNat).filter fun e => g ∣ e) := by
    apply List.filter_congr
    intro e _
    rw [hg, Int.tmod_eq_emod (by omega) (by omega)]
    simp only [decide_eq_decide]
    rw [← Int.natCast_mod, Nat.dvd_iff_mod_eq_zero]
    exact_mod_cast Iff.rfl
  rw [heq]
  unfold nEvtPrints
  exact_mod_cast hb

/-! ## Exit codes -/

theorem photonBody_ret_some (w : World) (e s p : Nat) {o : Outcome}
    (h : (photonBody w e s p).ret = some o) : o = Outcome.exit 1 := by
  unfold photonBody at h
  split at h <;> simp [EXIT_FAILURE] at h
  exact h.symm

theorem sysBody_ret_some (w : World) (e P s : Nat) {o : Outcome}
    (h : (sysBody w e P s).ret = some o) : o = Outcome.exit 1 := by
  unfold sysBody at h
  cases hsv : w.applySystematicVariation e s
  · simp [hsv, CHECK_false, Step.andThen] at h
    exact h.symm
  · rw [hsv, CHECK_true, call_andThen, call_andThen] at h
    obtain ⟨p, _, hp⟩ := forEach_ret_some _ _ h
    exact photonBody_ret_some w e s p hp

theorem eventBody_ret_some (w : World) (freq : Int) (e : Nat) (hf : freq ≠ 0) {o : Outcome}
    (h : (eventBody w freq e).ret = some o) : o = Outcome.exit 1 := by
  unfold eventBody at h
  rw [andThen_of_none _ (printProgress_ret freq e hf)] at h
  cases h1 : w.retrieveEventInfo e
  · simp [h1, CHECK_false, Step.andThen] at h
    exact h.symm
  · cases h2 : w.retrievePhotons e
    · simp [h1, h2, CHECK_false, CHECK_true, call_andThen, Step.andThen, call] at h
      exact h.symm
    · rw [h1, h2, CHECK_true, CHECK_true, call_andThen, call_andThen] at h
      obtain ⟨s, _, hs⟩ := forEach_ret_some _ _ h
      exact sysBody_ret_some w e _ s hs

theorem eventLoop_ret_some (w : World) (freq entries : Int) (hf : freq ≠ 0) {o : Outcome}
    (h : (eventLoop w freq entries).ret = some o) : o = Outcome.exit 1 := by
  obtain ⟨e, _, he⟩ := forEach_ret_some _ _ h
  exact eventBody_ret_some w freq e hf he

theorem eventLoop_ret_none_iff (w : World) (freq entries : Int)
    (hf : 0 < entries → freq ≠ 0) :
    (eventLoop w freq entries).ret = none ↔ ∀ e < entries.toNat, EventOk w e := by
  unfold eventLoop
  rw [forEach_ret_none_iff]
  constructor
  · intro h e he
    exact (eventBody_ret_none_iff w freq e (hf (by omega))).mp (h e (List.mem_range.mpr he))
  · intro h e he
    have he2 := List.mem_range.mp he
    exact (eventBody_ret_none_iff w freq e (hf (by omega))).mpr (h e he2)

theorem mk_some_andThen (t : List Call) (o : Outcome) (b : Step) :
    (Step.mk t (some o)).andThen b = ⟨t, some o⟩ := rfl

theorem setup_of_not_ok (w : World) (argv : List String) (h : ¬ SetupOk w argv) :
    (setup w argv).ret = some (Outcome.exit 1) := by
  unfold SetupOk at h
  unfold setup
  cases h1 : w.xAODInit
  · simp only [CHECK_false, mk_some_andThen]
  · cases h2 : w.TFileOpen (argv.getD 1 "")
    · simp only [CHECK_false, CHECK_true, call_andThen, mk_some_andThen]
    · cases h3 : w.readFrom
      · simp only [CHECK_false, CHECK_true, call_andThen, mk_some_andThen]
      · cases h4 : w.calibToolInit
        · simp only [CHECK_false, CHECK_true, call_andThen, mk_some_andThen]
        · exact absurd ⟨h1, h2, h3, h4⟩ h

theorem main_of_not_setupOk (w : World) (argv : List String) (hargc : 2 ≤ argv.length)
    (h : ¬ SetupOk w argv) : (main w argv).outcome = Outcome.exit 1 := by
  have h2 : ¬ argv.length < 2 := by omega
  simp only [main, h2, if_false, andThen_of_some _ (setup_of_not_ok w argv h),
    setup_of_not_ok w argv h]

/-- The exit code of `main` where the progress modulo is defined: it is 0 when
a file argument is given and no external call fails, and 1 otherwise. -/
theorem exit_code_of_defined_modulo (w : World) (argv : List String)
    (hf : 0 < entriesToProcess w argv → evtPrintFreq (entriesToProcess w argv) ≠ 0) :
    ((main w argv).outcome = Outcome.exit 0 ↔ 2 ≤ argv.length ∧ RunOk w argv) ∧
      ((main w argv).outcome = Outcome.exit 1 ↔ ¬ (2 ≤ argv.length ∧ RunOk w argv)) := by
  by_cases hargc : 2 ≤ argv.length
  · by_cases hs : SetupOk w argv
    · by_cases hl : ∀ e < (entriesToProcess w argv).toNat, EventOk w e
      · have hm := main_of_ok w argv hargc ⟨hs, hl⟩ hf
        have hrun : RunOk w argv := ⟨hs, hl⟩
        rw [hm]
        simp [hargc, hrun, EXIT_SUCCESS]
      · have hpos : 0 < entriesToProcess w argv := by
          by_contra hn
          apply hl
          intro e he
          omega
        have hnone := eventLoop_ret_none_iff w (evtPrintFreq (entriesToProcess w argv))
          (entriesToProcess w argv) hf
        have hrun : ¬ RunOk w argv := fun hr => hl hr.2
        cases hr : (eventLoop w (evtPrintFreq (entriesToProcess w argv))
            (entriesToProcess w argv)).ret with
        | none => exact absurd (hnone.mp hr) hl
        | some o =>
          have ho := eventLoop_ret_some w _ _ (hf hpos) hr
          subst ho
          rw [main_of_setupOk w argv hargc hs, hr]
          simp [hrun]
    · have hrun : ¬ RunOk w argv := fun hr => hs hr.1
      rw [main_of_not_setupOk w argv hargc hs]
      simp [hrun]
  · have h2 : argv.length < 2 := by omega
    simp [main, h2, hargc, EXIT_FAILURE]

/-! ## Runs with a narrowed print frequency -/

theorem runOk_allOk (E C : Int) (sys : List SystematicSet) (P : Nat) (argv : List String) :
    RunOk (allOk E C sys P) argv := by
  refine ⟨⟨rfl, rfl, rfl, rfl⟩, fun e _ => ⟨rfl, rfl, fun s _ => ⟨rfl, fun p _ => ?_⟩⟩⟩
  simp [allOk]

theorem length_filter_tmod_one (n : Nat) :
    ((List.range n).filter fun e : Nat => (e : Int).tmod 1 = 0).length = n := by
  simp

/-- C6 fails on the code for a store of `5 * 2^32 + 1 = 21474836481` entries
in which every call succeeds: the print frequency `4294967297` is narrowed to
the `int` 1, so every one of the 21474836481 iterations prints a progress
line, more than `nEvtPrints + 1`. -/
theorem progress_lines_exceed_bound :
    RunOk worldFreqOne argvNoCap ∧
      entriesToProcess worldFreqOne argvNoCap = 21474836481 ∧
      evtPrintFreq 21474836481 = 1 ∧
      (main worldFreqOne argvNoCap).outcome = Outcome.exit 0 ∧
      progressLines (main worldFreqOne argvNoCap).trace = 21474836481 ∧
      ¬ (progressLines (main worldFreqOne argvNoCap).trace : Int) ≤ nEvtPrints + 1 := by
  have hrun : RunOk worldFreqOne argvNoCap := runOk_allOk _ _ _ _ _
  have hN : entriesToProcess worldFreqOne argvNoCap = 21474836481 := by decide
  have hf : evtPrintFreq 21474836481 = 1 := by decide
  have hne : evtPrintFreq (entriesToProcess worldFreqOne argvNoCap) ≠ 0 := by
    rw [hN, hf]
    decide
  have hp := progressLines_of_ok worldFreqOne argvNoCap (by decide) hrun hne
  rw [hN, hf, length_filter_tmod_one] at hp
  have hp2 : progressLines (main worldFreqOne argvNoCap).trace = 21474836481 := by
    rw [hp]
    rfl
  refine ⟨hrun, hN, hf, ?_, hp2, ?_⟩
  · exact (eventsProcessed_of_ok worldFreqOne argvNoCap (by decide) hrun (fun _ => hne)).1
  · rw [hp2]
    decide

/-- C3 fails on the code for a store of `5 * (2^32 - 1) + 1 = 21474836476`
entries and no event cap: every external call succeeds, but the print
frequency `4294967296` is narrowed to the `int` 0 and the first iteration
ends in the modulo by zero, before any event is retrieved. -/
theorem uncapped_run_processes_nothing :
    RunOk worldFreqZero argvNoCap ∧
      worldFreqZero.getEntries = 21474836476 ∧
      evtPrintFreq 21474836476 = 0 ∧
      main worldFreqZero argvNoCap =
        ⟨setupTrace worldFreqZero argvNoCap ++ [Call.CALLGRIND_START_INSTRUMENTATION],
          Outcome.moduloByZero⟩ ∧
      eventsProcessed (main worldFreqZero argvNoCap).trace = [] ∧
      eventsProcessed (main worldFreqZero argvNoCap).trace ≠ List.range (21474836476 : Int).toNat := by
  have hrun : RunOk worldFreqZero argvNoCap := runOk_allOk _ _ _ _ _
  have hN : entriesToProcess worldFreqZero argvNoCap = 21474836476 := by decide
  have hf : evtPrintFreq 21474836476 = 0 := by decide
  have hm := main_of_zero_freq worldFreqZero argvNoCap (by decide) hrun.1
    (by rw [hN]; decide) (by rw [hN]; exact hf)
  have he : eventsProcessed (main worldFreqZero argvNoCap).trace = [] := by
    rw [hm]
    decide
  refine ⟨hrun, rfl, hf, hm, he, ?_⟩
  rw [he]
  intro h
  have hl := congrArg List.length h
  rw [List.length_range] at hl
  exact absurd hl (by decide)

/-- C7 fails on the code for the same store of 21474836476 entries: no
external call fails, yet `main` does not return 0 (nor 1): the run ends in
the modulo by zero of the progress printout. -/
theorem no_exit_code_on_zero_frequency :
    2 ≤ argvNoCap.length ∧ RunOk worldFreqZero argvNoCap ∧
      (main worldFreqZero argvNoCap).outcome = Outcome.moduloByZero ∧
      (main worldFreqZero argvNoCap).outcome ≠ Outcome.exit 0 ∧
      (main worldFreqZero argvNoCap).outcome ≠ Outcome.exit 1 := by
  have hrun : RunOk worldFreqZero argvNoCap := runOk_allOk _ _ _ _ _
  have hN : entriesToProcess worldFreqZero argvNoCap = 21474836476 := by decide
  have hf : evtPrintFreq 21474836476 = 0 := by decide
  have hm := main_of_zero_freq worldFreqZero argvNoCap (by decide) hrun.1
    (by rw [hN]; decide) (by rw [hN]; exact hf)
  rw [hm]
  exact ⟨by decide, hrun, rfl, by decide, by decide⟩

/-! ## A failing correction ends the run -/

theorem correctionRule_of_not_mem (w : World) (k s p : Nat) (st : Step)
    (h : Call.applyCorrection k s p ∉ st.trace) : CorrectionRule w k s p st := by
  intro pre post hdec
  exact absurd (by rw [hdec]; simp) h

theorem correctionRule_andThen (w : World) (k s p : Nat) (a b : Step)
    (ha : CorrectionRule w k s p a) (hb : CorrectionRule w k s p b) (hk : Continues b) :
    CorrectionRule w k s p (a.andThen b) := by
  cases har : a.ret with
  | some o =>
    rw [andThen_of_some _ har]
    exact ha
  | none =>
    rw [andThen_of_none _ har]
    intro pre post hdec
    simp only at hdec
    rcases List.append_eq_append_iff.mp hdec with ⟨a', rfl, hb'⟩ | ⟨c', ha', hc'⟩
    · exact hb a' post hb'
    · cases c' with
      | nil =>
        simp only [List.nil_append] at hc'
        exact hb [] post (by rw [← hc']; rfl)
      | cons x posta =>
        simp only [List.cons_append, List.cons.injEq] at hc'
        obtain ⟨rfl, rfl⟩ := hc'
        obtain ⟨h1, h2⟩ := ha pre posta (by rw [ha'])
        constructor
        · intro herr
          have := (h1 herr).2
          rw [har] at this
          exact absurd this (by simp)
        · intro hne
          obtain ⟨_, h4⟩ := h2 hne
          constructor
          · intro hnil
            exact hk.1 (List.append_eq_nil.mp hnil).2
          · cases posta with
            | nil => simpa using hk.2
            | cons y ys => simpa using h4

theorem continues_andThen (a b : Step) (ha : Continues a) (hb : Continues b) :
    Continues (a.andThen b) := by
  cases har : a.ret with
  | some o =>
    rw [andThen_of_some _ har]
    exact ha
  | none =>
    rw [andThen_of_none _ har]
    constructor
    · intro hnil
      exact hb.1 (List.append_eq_nil.mp hnil).2
    · cases hat : a.trace with
      | nil => simpa using hb.2
      | cons y ys =>
        have := ha.2
        rw [hat] at this
        simpa using this

theorem continues_forEach {α : Type} (body : α → Step) (xs : List α)
    (h : ∀ x ∈ xs, Continues (body x)) : Continues (forEach body xs) := by
  induction xs with
  | nil => exact ⟨fun _ => rfl, by simp [forEach]⟩
  | cons x xs ih =>
    rw [forEach]
    exact continues_andThen _ _ (h x (List.mem_cons_self _ _))
      (ih fun y hy => h y (List.mem_cons_of_mem _ hy))

theorem correctionRule_forEach {α : Type} (w : World) (k s p : Nat) (body : α → Step)
    (xs : List α) (h : ∀ x ∈ xs, CorrectionRule w k s p (body x))
    (hk : ∀ x ∈ xs, Continues (body x)) : CorrectionRule w k s p (forEach body xs) := by
  induction xs with
  | nil => exact correctionRule_of_not_mem w k s p _ (by simp [forEach])
  | cons x xs ih =>
    rw [forEach]
    exact correctionRule_andThen w k s p _ _ (h x (List.mem_cons_self _ _))
      (ih (fun y hy => h y (List.mem_cons_of_mem _ hy))
        (fun y hy => hk y (List.mem_cons_of_mem _ hy)))
      (continues_forEach body xs fun y hy => hk y (List.mem_cons_of_mem _ hy))

theorem continues_call (c : Call) (h : c ≠ Call.ErrorProblemInApplyCorrection) :
    Continues (call c) := by
  constructor
  · intro hnil
    rfl
  · simpa [call] using h

theorem continues_CHECK (c : Call) (result : Bool) (arg : CheckArg)
    (h : c ≠ Call.ErrorProblemInApplyCorrection) : Continues (CHECK c result arg) := by
  cases result
  · rw [CHECK_false]
    exact ⟨by simp, by simpa using h⟩
  · rw [CHECK_true]
    exact continues_call c h

theorem continues_photonBody (w : World) (e s p : Nat) : Continues (photonBody w e s p) := by
  unfold photonBody
  split
  · exact ⟨by simp, by simp⟩
  · exact ⟨by simp, by simp⟩

theorem correctionRule_photonBody (w : World) (k s p e s2 p2 : Nat) :
    CorrectionRule w k s p (photonBody w e s2 p2) := by
  by_cases heq : Call.applyCorrection e s2 p2 = Call.applyCorrection k s p
  · simp only [Call.applyCorrection.injEq] at heq
    obtain ⟨rfl, rfl, rfl⟩ := heq
    intro pre post hdec
    by_cases herr : w.applyCorrection e s2 p2 = CorrectionCode.Error
    · rw [photonBody_of_error w e s2 p2 herr] at hdec
      simp only at hdec
      cases pre with
      | nil =>
        simp only [List.nil_append, List.cons.injEq, true_and] at hdec
        subst hdec
        exact ⟨fun _ => ⟨rfl, by rw [photonBody_of_error w e s2 p2 herr]; rfl⟩,
          fun hne => absurd herr hne⟩
      | cons x pre =>
        simp only [List.cons_append, List.cons.injEq] at hdec
        obtain ⟨_, hdec⟩ := hdec
        cases pre with
        | nil => simp at hdec
        | cons y pre =>
          simp only [List.cons_append, List.cons.injEq] at hdec
          exact absurd hdec.2 (by simp)
    · rw [photonBody_of_ok w e s2 p2 herr] at hdec
      simp only [call] at hdec
      cases pre with
      | nil =>
        simp only [List.nil_append, List.cons.injEq, true_and] at hdec
        subst hdec
        exact ⟨fun h => absurd h herr,
          fun _ => ⟨fun _ => by rw [photonBody_of_ok w e s2 p2 herr]; rfl, by simp⟩⟩
      | cons x pre =>
        simp only [List.cons_append, List.cons.injEq] at hdec
        exact absurd hdec.2 (by simp)
  · apply correctionRule_of_not_mem
    unfold photonBody
    split
    · simp only [List.mem_cons, List.mem_singleton, not_or]
      exact ⟨fun h => heq h.symm, by simp, by simp⟩
    · simp only [List.mem_singleton]
      exact fun h => heq h.symm

theorem continues_sysBody (w : World) (e P s : Nat) : Continues (sysBody w e P s) := by
  unfold sysBody
  exact continues_andThen _ _ (continues_CHECK _ _ _ (by simp))
    (continues_andThen _ _ (continues_call _ (by simp))
      (continues_forEach _ _ fun p _ => continues_photonBody w e s p))

theorem correctionRule_sysBody (w : World) (k s p e P s2 : Nat) :
    CorrectionRule w k s p (sysBody w e P s2) := by
  unfold sysBody
  refine correctionRule_andThen w k s p _ _ (correctionRule_of_not_mem w k s p _ ?_)
    (correctionRule_andThen w k s p _ _ (correctionRule_of_not_mem w k s p _ (by simp [call]))
      (correctionRule_forEach w k s p _ _ (fun p2 _ => correctionRule_photonBody w k s p e s2 p2)
        (fun p2 _ => continues_photonBody w e s2 p2))
      (continues_forEach _ _ fun p2 _ => continues_photonBody w e s2 p2))
    (continues_andThen _ _ (continues_call _ (by simp))
      (continues_forEach _ _ fun p2 _ => continues_photonBody w e s2 p2))
  cases w.applySystematicVariation e s2 <;> simp [CHECK]

theorem continues_printProgress (freq : Int) (e : Nat) (hf : freq ≠ 0) :
    Continues (printProgress freq e) := by
  constructor
  · intro _
    exact printProgress_ret freq e hf
  · rcases printProgress_trace freq e with h | h <;> simp [h]

theorem not_mem_printProgress (freq : Int) (e k s p : Nat) :
    Call.applyCorrection k s p ∉ (printProgress freq e).trace := by
  rcases printProgress_trace freq e with h | h <;> simp [h]

theorem continues_eventTail (w : World) (e : Nat) :
    Continues ((CHECK (Call.retrieveEventInfo e) (w.retrieveEventInfo e)
      CheckArg.retrieveEventInfo).andThen
      ((CHECK (Call.retrievePhotons e) (w.retrievePhotons e) CheckArg.retrievePhotons).andThen
        (forEach (sysBody w e (w.photons e)) (List.range w.sysList.length)))) :=
  continues_andThen _ _ (continues_CHECK _ _ _ (by simp))
    (continues_andThen _ _ (continues_CHECK _ _ _ (by simp))
      (continues_forEach _ _ fun s _ => continues_sysBody w e _ s))

theorem continues_eventBody (w : World) (freq : Int) (e : Nat) (hf : freq ≠ 0) :
    Continues (eventBody w freq e) := by
  unfold eventBody
  exact continues_andThen _ _ (continues_printProgress freq e hf) (continues_eventTail w e)

theorem not_mem_CHECK (c : Call) (result : Bool) (arg : CheckArg) (k s p : Nat)
    (h : c ≠ Call.applyCorrection k s p) : Call.applyCorrection k s p ∉ (CHECK c result arg).trace := by
  cases result
  · simp only [CHECK_false, List.mem_cons, List.mem_singleton, not_or]
    exact ⟨fun h2 => h h2.symm, by simp, by simp⟩
  · simp only [CHECK_true, call, List.mem_singleton]
    exact fun h2 => h h2.symm

theorem correctionRule_eventBody (w : World) (freq : Int) (k s p e : Nat) :
    CorrectionRule w k s p (eventBody w freq e) := by
  unfold eventBody
  exact correctionRule_andThen w k s p _ _
    (correctionRule_of_not_mem w k s p _ (not_mem_printProgress freq e k s p))
    (correctionRule_andThen w k s p _ _
      (correctionRule_of_not_mem w k s p _ (not_mem_CHECK _ _ _ k s p (by simp)))
      (correctionRule_andThen w k s p _ _
        (correctionRule_of_not_mem w k s p _ (not_mem_CHECK _ _ _ k s p (by simp)))
        (correctionRule_forEach w k s p _ _ (fun s2 _ => correctionRule_sysBody w k s p e _ s2)
          (fun s2 _ => continues_sysBody w e _ s2))
        (continues_forEach _ _ fun s2 _ => continues_sysBody w e _ s2))
      (continues_andThen _ _ (continues_CHECK _ _ _ (by simp))
        (continues_forEach _ _ fun s2 _ => continues_sysBody w e _ s2)))
    (continues_eventTail w e)

theorem correctionRule_eventLoop (w : World) (freq entries : Int) (k s p : Nat) :
    CorrectionRule w k s p (eventLoop w freq entries) := by
  by_cases hf : freq = 0
  · subst hf
    apply correctionRule_of_not_mem
    by_cases hpos : 0 < entries
    · rw [eventLoop_of_zero_freq w entries hpos]
      simp
    · rw [eventLoop_of_nonpos w 0 entries (by omega)]
      simp
  · exact correctionRule_forEach w k s p _ _ (fun e _ => correctionRule_eventBody w freq k s p e)
      (fun e _ => continues_eventBody w freq e hf)

theorem correctionRule_andThen_of_not_mem (w : World) (k s p : Nat) (a b : Step)
    (ha : Call.applyCorrection k s p ∉ a.trace) (hb : CorrectionRule w k s p b) :
    CorrectionRule w k s p (a.andThen b) := by
  cases har : a.ret with
  | some o =>
    rw [andThen_of_some _ har]
    exact correctionRule_of_not_mem w k s p a ha
  | none =>
    rw [andThen_of_none _ har]
    intro pre post hdec
    simp only at hdec
    rcases List.append_eq_append_iff.mp hdec with ⟨a', rfl, hb'⟩ | ⟨c', ha', hc'⟩
    · exact hb a' post hb'
    · cases c' with
      | nil =>
        simp only [List.nil_append] at hc'
        exact hb [] post (by rw [← hc']; rfl)
      | cons x posta =>
        simp only [List.cons_append, List.cons.injEq] at hc'
        obtain ⟨rfl, rfl⟩ := hc'
        exact absurd (by rw [ha']; simp) ha

theorem forall_call_trace (P : Call → Prop) (c : Call) (h : P c) :
    ∀ x ∈ (call c).trace, P x := by
  intro x hx
  simp only [call, List.mem_singleton] at hx
  rw [hx]
  exact h

theorem forall_CHECK_trace (P : Call → Prop) (c : Call) (result : Bool) (arg : CheckArg)
    (h : P c) (he : P (Call.ErrorFailedToExecute arg)) :
    ∀ x ∈ (CHECK c result arg).trace, P x := by
  intro x hx
  cases result
  · simp only [CHECK_false, List.mem_cons, List.mem_singleton] at hx
    rcases hx with rfl | rfl | hx
    · exact h
    · exact he
    · simp at hx
  · rw [CHECK_true] at hx
    exact forall_call_trace P c h x hx

theorem setup_trace_not_loopCall (w : World) (argv : List String) :
    ∀ c ∈ (setup w argv).trace, c.isLoopCall = false := by
  unfold setup
  repeat' apply andThen_trace_forall (fun c => c.isLoopCall = false)
  all_goals first
    | exact forall_CHECK_trace _ _ _ _ rfl rfl
    | exact forall_call_trace _ _ rfl
    | skip
  apply forEach_trace_forall
  intro s _
  exact forall_call_trace _ _ rfl

/-- Every call of the event loop is a call into the store or the tool, or a log
line: the loop emits no monitoring signal. -/
theorem eventLoop_trace_calls (w : World) (freq entries : Int) :
    ∀ c ∈ (eventLoop w freq entries).trace, c.isLoopCall = true ∨ c.isLog = true := by
  unfold eventLoop
  apply forEach_trace_forall
  intro e _
  unfold eventBody
  apply andThen_trace_forall (fun c => c.isLoopCall = true ∨ c.isLog = true)
  · intro c hc
    rcases printProgress_trace freq e with h | h <;> rw [h] at hc <;> simp at hc
    subst hc
    exact Or.inr rfl
  apply andThen_trace_forall (fun c => c.isLoopCall = true ∨ c.isLog = true)
  · exact forall_CHECK_trace _ _ _ _ (Or.inl rfl) (Or.inr rfl)
  apply andThen_trace_forall (fun c => c.isLoopCall = true ∨ c.isLog = true)
  · exact forall_CHECK_trace _ _ _ _ (Or.inl rfl) (Or.inr rfl)
  apply forEach_trace_forall
  intro s _
  unfold sysBody
  apply andThen_trace_forall (fun c => c.isLoopCall = true ∨ c.isLog = true)
  · exact forall_CHECK_trace _ _ _ _ (Or.inl rfl) (Or.inr rfl)
  apply andThen_trace_forall (fun c => c.isLoopCall = true ∨ c.isLog = true)
  · exact forall_call_trace _ _ (Or.inl rfl)
  apply forEach_trace_forall
  intro p _ c hc
  unfold photonBody at hc
  split at hc
  · simp only [List.mem_cons, List.mem_singleton] at hc
    rcases hc with rfl | rfl | hc
    · exact Or.inl rfl
    · exact Or.inr rfl
    · simp at hc
  · simp only [List.mem_singleton] at hc
    subst hc
    exact Or.inl rfl

theorem eventLoop_ret_ne_zero (w : World) (freq entries : Int) {o : Outcome}
    (h : (eventLoop w freq entries).ret = some o) : o ≠ Outcome.exit 0 := by
  by_cases hf : freq = 0
  · subst hf
    by_cases hpos : 0 < entries
    · rw [eventLoop_of_zero_freq w entries hpos] at h
      simp only [Option.some.injEq] at h
      subst h
      simp
    · rw [eventLoop_of_nonpos w 0 entries (by omega)] at h
      simp at h
  · rw [eventLoop_ret_some w freq entries hf h]
    simp

/-- The run of `main` with a file argument, as one block: the set-up, the start
signal, the event loop, and the stop signal with `return EXIT_SUCCESS`. -/
theorem main_as_step (w : World) (argv : List String) (hargc : 2 ≤ argv.length) :
    (main w argv).trace =
        (((setup w argv).andThen ((call Call.CALLGRIND_START_INSTRUMENTATION).andThen
          (eventLoop w (evtPrintFreq (entriesToProcess w argv)) (entriesToProcess w argv)))).andThen
          ⟨[Call.CALLGRIND_STOP_INSTRUMENTATION], some (Outcome.exit EXIT_SUCCESS)⟩).trace ∧
      some (main w argv).outcome =
        (((setup w argv).andThen ((call Call.CALLGRIND_START_INSTRUMENTATION).andThen
          (eventLoop w (evtPrintFreq (entriesToProcess w argv)) (entriesToProcess w argv)))).andThen
          ⟨[Call.CALLGRIND_STOP_INSTRUMENTATION], some (Outcome.exit EXIT_SUCCESS)⟩).ret := by
  have h2 : ¬ argv.length < 2 := by omega
  simp only [main, h2, if_false]
  cases hb : ((setup w argv).andThen ((call Call.CALLGRIND_START_INSTRUMENTATION).andThen
      (eventLoop w (evtPrintFreq (entriesToProcess w argv)) (entriesToProcess w argv)))).ret with
  | none => simp [andThen_of_none _ hb]
  | some o => simp [andThen_of_some _ hb, hb]

/-- C5: whenever `applyCorrection` is called (on photon `p` of the copy for
variation `s` in iteration `k`): if it reports `Error`, the only thing that
follows in the run is the error message, so no further `applyCorrection`,
`applySystematicVariation`, shallow-copy or retrieve call is made and no later
event is processed, and `main` returns the non-zero `EXIT_FAILURE`; if it
reports another status, the run goes on with a further call that is not the
error message of a failed correction. -/
theorem correction_error_aborts (w : World) (argv : List String) (k s p : Nat)
    (pre post : List Call)
    (h : (main w argv).trace = pre ++ Call.applyCorrection k s p :: post) :
    (w.applyCorrection k s p = CorrectionCode.Error →
        post = [Call.ErrorProblemInApplyCorrection] ∧
        (main w argv).outcome = Outcome.exit EXIT_FAILURE ∧ EXIT_FAILURE ≠ 0) ∧
      (w.applyCorrection k s p ≠ CorrectionCode.Error →
        post ≠ [] ∧ post.head? ≠ some Call.ErrorProblemInApplyCorrection) := by
  have hargc : 2 ≤ argv.length := by
    by_contra hlt
    have h2 : argv.length < 2 := by omega
    simp only [main, h2, if_true] at h
    have hm : Call.applyCorrection k s p ∈ [Call.ErrorNoFileName, Call.ErrorUsage] := by
      rw [h]
      simp
    simp at hm
  obtain ⟨ht, hr⟩ := main_as_step w argv hargc
  have hsetup : Call.applyCorrection k s p ∉ (setup w argv).trace := by
    intro hm
    have := setup_trace_not_loopCall w argv _ hm
    simp [Call.isLoopCall] at this
  have hstart : Call.applyCorrection k s p ∉ (call Call.CALLGRIND_START_INSTRUMENTATION).trace := by
    simp [call]
  have hrule := correctionRule_andThen w k s p _
    ⟨[Call.CALLGRIND_STOP_INSTRUMENTATION], some (Outcome.exit EXIT_SUCCESS)⟩
    (correctionRule_andThen_of_not_mem w k s p _ _ hsetup
      (correctionRule_andThen_of_not_mem w k s p _ _ hstart
        (correctionRule_eventLoop w (evtPrintFreq (entriesToProcess w argv))
          (entriesToProcess w argv) k s p)))
    (correctionRule_of_not_mem w k s p _ (by simp))
    ⟨by simp, by simp⟩
  rw [ht] at h
  obtain ⟨h1, h2⟩ := hrule pre post h
  constructor
  · intro herr
    obtain ⟨hp, hret⟩ := h1 herr
    rw [← hr] at hret
    simp only [Option.some.injEq] at hret
    exact ⟨hp, by rw [hret]; rfl, by decide⟩
  · intro hne
    obtain ⟨hp, hhead⟩ := h2 hne
    refine ⟨fun hnil => ?_, hhead⟩
    have := hp hnil
    rw [← hr] at this
    simp at this

theorem correction_error_aborts_witness :
    (main worldCorrectionError argvNoCap).trace =
        (main worldCorrectionError argvNoCap).trace.take 26 ++
          Call.applyCorrection 0 1 0 :: [Call.ErrorProblemInApplyCorrection] ∧
      worldCorrectionError.applyCorrection 0 1 0 = CorrectionCode.Error ∧
      (main worldCorrectionError argvNoCap).outcome = Outcome.exit EXIT_FAILURE :=
  ⟨by decide, by decide,
    ((correction_error_aborts worldCorrectionError argvNoCap 0 1 0
      ((main worldCorrectionError argvNoCap).trace.take 26)
      [Call.ErrorProblemInApplyCorrection] (by decide)).1 (by decide)).2.1⟩

/-- C8 (amended): in a run that reaches the main loop (a file argument is given
and the set-up succeeds) the start signal is emitted exactly once, directly
before the calls of the event loop and after the systematics enumeration and
every other call of the set-up, none of which is a call of the loop.  When
`main` returns 0 the stop signal directly follows the calls of the loop and is
the last call, so every call of the loop lies between the two signals; when
`main` returns 1 from inside the loop nothing follows the calls of the loop
and no stop signal is emitted. -/
theorem monitoring_bracket (w : World) (argv : List String) (hargc : 2 ≤ argv.length)
    (hs : SetupOk w argv) :
    ∃ post, (main w argv).trace =
        setupTrace w argv ++ Call.CALLGRIND_START_INSTRUMENTATION ::
          (eventLoop w (evtPrintFreq (entriesToProcess w argv))
            (entriesToProcess w argv)).trace ++ post ∧
      Call.make_systematics_vector ∈ setupTrace w argv ∧
      (∀ c ∈ setupTrace w argv, c.isLoopCall = false ∧
        c ≠ Call.CALLGRIND_START_INSTRUMENTATION ∧ c ≠ Call.CALLGRIND_STOP_INSTRUMENTATION) ∧
      (∀ c ∈ (eventLoop w (evtPrintFreq (entriesToProcess w argv))
          (entriesToProcess w argv)).trace,
        c ≠ Call.CALLGRIND_START_INSTRUMENTATION ∧ c ≠ Call.CALLGRIND_STOP_INSTRUMENTATION) ∧
      (main w argv).trace.count Call.CALLGRIND_START_INSTRUMENTATION = 1 ∧
      ((main w argv).outcome = Outcome.exit 0 → post = [Call.CALLGRIND_STOP_INSTRUMENTATION]) ∧
      ((main w argv).outcome = Outcome.exit 1 →
        post = [] ∧ Call.CALLGRIND_STOP_INSTRUMENTATION ∉ (main w argv).trace) := by
  have hset : ∀ c ∈ setupTrace w argv, c.isLoopCall = false ∧
      c ≠ Call.CALLGRIND_START_INSTRUMENTATION ∧ c ≠ Call.CALLGRIND_STOP_INSTRUMENTATION := by
    intro c hc
    simp only [setupTrace, List.mem_append, List.mem_cons, List.mem_map] at hc
    rcases hc with hc | ⟨s, _, rfl⟩
    · rcases hc with rfl | rfl | rfl | rfl | rfl | rfl | rfl | rfl | rfl | rfl | rfl | rfl |
        rfl | rfl | hc
      all_goals first | simp at hc | exact ⟨rfl, by simp, by simp⟩
    · exact ⟨rfl, by simp, by simp⟩
  have hloop : ∀ c ∈ (eventLoop w (evtPrintFreq (entriesToProcess w argv))
      (entriesToProcess w argv)).trace,
      c ≠ Call.CALLGRIND_START_INSTRUMENTATION ∧ c ≠ Call.CALLGRIND_STOP_INSTRUMENTATION := by
    intro c hc
    have := eventLoop_trace_calls w _ _ c hc
    constructor <;> rintro rfl <;> simp [Call.isLoopCall, Call.isLog] at this
  have hmk : Call.make_systematics_vector ∈ setupTrace w argv := by
    simp [setupTrace]
  have hc1 : (setupTrace w argv).count Call.CALLGRIND_START_INSTRUMENTATION = 0 :=
    List.count_eq_zero.mpr fun hc => (hset _ hc).2.1 rfl
  have hc2 : (eventLoop w (evtPrintFreq (entriesToProcess w argv))
      (entriesToProcess w argv)).trace.count Call.CALLGRIND_START_INSTRUMENTATION = 0 :=
    List.count_eq_zero.mpr fun hc => (hloop _ hc).1 rfl
  have hm := main_of_setupOk w argv hargc hs
  cases hr : (eventLoop w (evtPrintFreq (entriesToProcess w argv))
      (entriesToProcess w argv)).ret with
  | none =>
    rw [hr] at hm
    refine ⟨[Call.CALLGRIND_STOP_INSTRUMENTATION], ?_, hmk, hset, hloop, ?_, fun _ => rfl, ?_⟩
    · rw [hm]
    · rw [hm]
      simp [List.count_append, List.count_cons, hc1, hc2]
    · intro ho
      rw [hm] at ho
      simp [EXIT_SUCCESS] at ho
  | some o =>
    rw [hr] at hm
    refine ⟨[], ?_, hmk, hset, hloop, ?_, ?_, ?_⟩
    · rw [hm]
      simp
    · rw [hm]
      simp [List.count_append, List.count_cons, hc1, hc2]
    · intro ho
      rw [hm] at ho
      simp only at ho
      exact absurd ho (eventLoop_ret_ne_zero w _ _ hr)
    · intro _
      refine ⟨rfl, ?_⟩
      rw [hm]
      simp only [List.mem_append, List.mem_cons, not_or]
      exact ⟨fun hc => (hset _ hc).2.2 rfl, by simp, fun hc => (hloop _ hc).2 rfl⟩

theorem monitoring_bracket_witness :
    2 ≤ argvNoCap.length ∧ SetupOk (allOk 3 0 twoSysts 2) argvNoCap ∧
      ∃ post, (main (allOk 3 0 twoSysts 2) argvNoCap).trace =
        setupTrace (allOk 3 0 twoSysts 2) argvNoCap ++ Call.CALLGRIND_START_INSTRUMENTATION ::
          (eventLoop (allOk 3 0 twoSysts 2)
            (evtPrintFreq (entriesToProcess (allOk 3 0 twoSysts 2) argvNoCap))
            (entriesToProcess (allOk 3 0 twoSysts 2) argvNoCap)).trace ++ post :=
  ⟨by decide, by decide,
    (monitoring_bracket (allOk 3 0 twoSysts 2) argvNoCap (by decide) (by decide)).imp
      fun _ h => h.1⟩

/-- C8 as stated fails for a run that reaches the main loop and aborts in it:
when the first retrieval of the event info fails, the start signal and the
retrieve call are in the trace, `main` returns 1, and no stop signal is
emitted, so the retrieve call does not lie between a start and a stop signal. -/
theorem no_stop_signal_after_abort :
    2 ≤ argvNoCap.length ∧ SetupOk worldRetrieveFails argvNoCap ∧
      Call.CALLGRIND_START_INSTRUMENTATION ∈ (main worldRetrieveFails argvNoCap).trace ∧
      Call.retrieveEventInfo 0 ∈ (main worldRetrieveFails argvNoCap).trace ∧
      Call.CALLGRIND_STOP_INSTRUMENTATION ∉ (main worldRetrieveFails argvNoCap).trace ∧
      (main worldRetrieveFails argvNoCap).outcome = Outcome.exit 1 := by
  decide

end PhotonCalibPerf
